import Mathlib

/-!
Shallow embedding of the SpeedReader application (`src/src/App.jsx`).

The embedding covers: the whitespace tokenizer (`String.split(/\s+/)` as used
by `parseTxt`, `parseEpub`, `parsePdf` and `handleSelectChapter`), the text
normalization pipeline of `extractCleanTextFromHTML`, the playback / session
state machine (`handlePlay`, `handlePause`, `handleReset`,
`handleSelectChapter`, `handleWordClick`, the interval tick callback), the
importing flows (`parseTxt`, `parsePdf`, `parseEpub`), the resume reconciler
(the `useEffect` on `[chapters]`), the persistence effect, and the dictionary
lookup handler.

Event handlers are modelled as atomic state transformers on `AppState`
(the browser runs them on a single cooperative timeline and React flushes
state updates between events).  The live `setInterval` timers of the page are
modelled explicitly as a list of `Timer`s in the state, each remembering the
`chapterWords.length` its callback closure captured, so that "at most one
tick source" is a real statement and not an artifact of an `Option` field.
-/

namespace SpeedReader

/-- The JS whitespace class `\s` as matched by the regexes in `App.jsx`
(ASCII part: space, tab, newline, carriage return, vertical tab, form feed;
the Unicode space classes are irrelevant to the inputs considered here). -/
def isWs (c : Char) : Bool :=
  c = ' ' || c = '\t' || c = '\n' || c = '\r' || c = '\x0b' || c = '\x0c'

/-- Worker for `splitWs`.  `cur` holds the characters of the token being
collected (reversed); `prevWs` records whether the previous character was
whitespace (so that a run of whitespace produces a single split point).
Mirrors JS `String.prototype.split(/\s+/)`: a leading whitespace run yields
an empty first field, a trailing run an empty last field, and `""` splits
to `[""]`. -/
def splitWsGo : List Char → List Char → Bool → List (List Char)
  | [], cur, _ => [cur.reverse]
  | c :: rest, cur, prevWs =>
    if isWs c then
      if prevWs then splitWsGo rest cur true
      else cur.reverse :: splitWsGo rest [] true
    else splitWsGo rest (c :: cur) false

/-- Embeds `text.split(/\s+/)` from `App.jsx` (lines 40, 133, 161, 240, 353). -/
def splitWs (s : String) : List String :=
  (splitWsGo s.data [] false).map (fun cs => String.mk cs)

/-! ### Text normalization (`extractCleanTextFromHTML`, lines 52-73)

The pure normalization pipeline applied after block extraction:
`replace(/\n{3,}/g, '\n\n')`, then `replace(/[ \t]+/g, ' ')`, then
`replace(/([.!?])([^ \n])/g, '$1 $2')`, then `trim()`. -/

/-- What the `\n{3,}` replacement emits for a maximal newline run of length
`run`: runs of three or more newlines become exactly two, shorter runs are
kept as they are. -/
def emitRun (run : Nat) : List Char :=
  if 3 ≤ run then ['\n', '\n'] else List.replicate run '\n'

/-- Worker for `collapseNl`; `run` counts the pending newline run. -/
def collapseNlGo : List Char → Nat → List Char
  | [], run => emitRun run
  | c :: rest, run =>
    if c = '\n' then collapseNlGo rest (run + 1)
    else emitRun run ++ c :: collapseNlGo rest 0

/-- Embeds `text.replace(/\n{3,}/g, '\n\n')` (line 69). -/
def collapseNl (cs : List Char) : List Char := collapseNlGo cs 0

/-- The horizontal-whitespace class `[ \t]` of line 70. -/
def isHws (c : Char) : Bool := c = ' ' || c = '\t'

/-- Worker for `collapseSp`; `pend` records that a horizontal-whitespace run
is open and a single `' '` is owed. -/
def collapseSpGo : List Char → Bool → List Char
  | [], pend => if pend then [' '] else []
  | c :: rest, pend =>
    if isHws c then collapseSpGo rest true
    else (if pend then [' '] else []) ++ c :: collapseSpGo rest false

/-- Embeds `text.replace(/[ \t]+/g, ' ')` (line 70). -/
def collapseSp (cs : List Char) : List Char := collapseSpGo cs false

/-- The sentence-ending punctuation class `[.!?]` of line 71. -/
def isPunct (c : Char) : Bool := c = '.' || c = '!' || c = '?'

/-- The class `[^ \n]` of line 71. -/
def isExcl (c : Char) : Bool := !(c = ' ' || c = '\n')

/-- Embeds `text.replace(/([.!?])([^ \n])/g, '$1 $2')` (line 71).  As in JS global
replace, scanning resumes after the two matched characters, so the second
character of a match is never itself examined as a potential `$1`. -/
def fixPunct : List Char → List Char
  | [] => []
  | [c] => [c]
  | c :: d :: rest =>
    if isPunct c && isExcl d then c :: ' ' :: d :: fixPunct rest
    else c :: fixPunct (d :: rest)

/-- Remove trailing whitespace. -/
def dropTrailWs (cs : List Char) : List Char := (cs.reverse.dropWhile isWs).reverse

/-- Embeds `text.trim()` (line 72). -/
def trimWs (cs : List Char) : List Char := dropTrailWs (cs.dropWhile isWs)

/-- The whitespace-normalization pipeline of `extractCleanTextFromHTML`
(lines 68-72), applied in source order. -/
def normalizeText (s : String) : String :=
  String.mk (trimWs (fixPunct (collapseSp (collapseNl s.data))))

/-- Embeds `extractCleanTextFromHTML` (lines 52-73) with the DOM parse abstracted:
`blocks` are the `textContent`s of the `p, li` elements in document order and
`bodyText` is `doc.body.textContent`.  Blocks whose text is all whitespace
are dropped (`t.replace(/\s+/g, '').length > 0`), each kept block is followed
by a blank line, and if nothing remains the body text is used as fallback;
the result is then whitespace-normalized. -/
def extractCleanTextFromHTML (blocks : List String) (bodyText : String) : String :=
  let text := String.join ((blocks.filter
      (fun t => !(t.data.filter (fun c => !(isWs c))).isEmpty)).map
      (fun t => t ++ "\n\n"))
  let text2 := if (trimWs text.data).isEmpty then bodyText else text
  normalizeText text2

/-! ### Application state (the `useState`/`useRef` cells of `App`, lines 11-33) -/

/-- A chapter `{title, text, index}` as built by `parseEpub` (line 113). -/
structure Chapter where
  title : String
  text : String
  index : Nat
deriving DecidableEq

/-- A live `setInterval` timer.  `id` is the interval id; `len` is the value
of `chapterWords.length` captured by the callback closure at creation time
(the callback of line 208 compares `prevIdx` against that captured length,
not against the current one). -/
structure Timer where
  id : Nat
  len : Nat
deriving DecidableEq

/-- Embeds `pendingResumeRef.current` (lines 329-333). -/
structure PendingResume where
  selectedChapterIdx : Nat
  currentWordIdx : Nat
  showChapters : Bool
deriving DecidableEq

/-- One in-flight dictionary request of `handleDictionaryLookup`:
`id` records issuance order, `word` the word looked up. -/
structure LookupReq where
  id : Nat
  word : String
deriving DecidableEq

/-- Outcome of the dictionary fetch (lines 267-282): a 2xx response carrying
`meanings` (each a list of definition strings), a non-2xx response, or a
transport/parse failure. -/
inductive DictResponse where
  | ok (meanings : List (List String))
  | httpFail
  | netFail
deriving DecidableEq

/-- The component state.  `activeTimers`, `nextTimerId`, `pendingLookups` and
`nextLookupId` model the browser environment (live intervals and in-flight
fetches); the other fields are the `useState`/`useRef` cells of `App`. -/
structure AppState where
  fileName : String
  error : String
  fileContent : String
  words : List String
  currentWordIdx : Nat
  isPlaying : Bool
  intervalId : Option Nat
  loading : Bool
  chapters : List Chapter
  selectedChapterIdx : Option Nat
  chapterWords : List String
  showChapters : Bool
  selectedWord : Option String
  selectedWordIdx : Option Nat
  showDictionary : Bool
  dictionaryDefinition : String
  pendingResume : Option PendingResume
  activeTimers : List Timer
  nextTimerId : Nat
  pendingLookups : List LookupReq
  nextLookupId : Nat
deriving DecidableEq

/-- The initial state (the `useState` initializers, lines 15-33). -/
def initState : AppState where
  fileName := ""
  error := ""
  fileContent := ""
  words := []
  currentWordIdx := 0
  isPlaying := false
  intervalId := none
  loading := false
  chapters := []
  selectedChapterIdx := none
  chapterWords := []
  showChapters := true
  selectedWord := none
  selectedWordIdx := none
  showDictionary := false
  dictionaryDefinition := ""
  pendingResume := none
  activeTimers := []
  nextTimerId := 0
  pendingLookups := []
  nextLookupId := 0

/-! ### Playback operations (lines 202-256) -/

/-- Remove a live interval (`clearInterval(i)`). -/
def clearTimer (i : Nat) (timers : List Timer) : List Timer :=
  timers.filter (fun t => t.id != i)

/-- Embeds `handlePlay` (lines 202-222): no-op when `chapterWords` is empty;
otherwise sets `isPlaying` and hides the chapter sidebar, then — only when
no interval id is recorded — starts a fresh repeating timer whose callback
captures the current `chapterWords.length`. -/
def handlePlay (s : AppState) : AppState :=
  if s.chapterWords.isEmpty then s
  else
    let s1 := { s with isPlaying := true, showChapters := false }
    match s.intervalId with
    | some _ => s1
    | none =>
      { s1 with intervalId := some s.nextTimerId,
                activeTimers := s.activeTimers ++ [⟨s.nextTimerId, s.chapterWords.length⟩],
                nextTimerId := s.nextTimerId + 1 }

/-- The interval callback (lines 208-219) of a timer `t`: advance the cursor
while `prevIdx < len - 1` (with `len` the captured length), otherwise clear
the interval, stop playing and leave the cursor in place. -/
def intervalTick (t : Timer) (s : AppState) : AppState :=
  if s.currentWordIdx < t.len - 1 then
    { s with currentWordIdx := s.currentWordIdx + 1 }
  else
    { s with isPlaying := false, intervalId := none,
             activeTimers := clearTimer t.id s.activeTimers }

/-- The environment fires the interval with id `i`, if it is live. -/
def tickStep (i : Nat) (s : AppState) : AppState :=
  match s.activeTimers.find? (fun t => t.id == i) with
  | some t => intervalTick t s
  | none => s

/-- Embeds `handlePause` (lines 224-230). -/
def handlePause (s : AppState) : AppState :=
  let s1 := { s with isPlaying := false }
  match s.intervalId with
  | some i => { s1 with intervalId := none, activeTimers := clearTimer i s1.activeTimers }
  | none => s1

/-- Embeds `handleReset` (lines 232-235): rewind to word 0, then pause. -/
def handleReset (s : AppState) : AppState :=
  handlePause { s with currentWordIdx := 0 }

/-- Embeds `handleSelectChapter` (lines 238-245).  The UI only invokes it with an
index of a rendered chapter button, so the model guards on `chapters.get?`. -/
def handleSelectChapter (i : Nat) (s : AppState) : AppState :=
  match s.chapters[i]? with
  | some ch =>
    { s with selectedChapterIdx := some i,
             chapterWords := splitWs ch.text,
             currentWordIdx := 0,
             isPlaying := false,
             intervalId := none,
             activeTimers := match s.intervalId with
               | some j => clearTimer j s.activeTimers
               | none => s.activeTimers }
  | none => s

/-- Embeds `handleWordClick` (lines 248-256); `i` is the index of a rendered word
span, so the UI guarantees `i < chapterWords.length`. -/
def handleWordClick (i : Nat) (s : AppState) : AppState :=
  { s with currentWordIdx := i,
           isPlaying := false,
           intervalId := none,
           activeTimers := (match s.intervalId with
             | some j => clearTimer j s.activeTimers
             | none => s.activeTimers),
           selectedWord := s.chapterWords[i]?,
           selectedWordIdx := some i,
           showDictionary := false }

/-- Toggle of the chapter sidebar (the `onClick` handlers of lines 401
and 458). -/
def setShowChapters (b : Bool) (s : AppState) : AppState :=
  { s with showChapters := b }

/-! ### Dictionary lookup (lines 258-284) -/

/-- Mapping from the provider response to the displayed string
(lines 268-281): first meaning's first definition when present (with the
`definition || 'No definition found.'` fallback for an empty string); the
fixed not-found message for zero meanings or a non-2xx response; the fixed
error message when the fetch or the field access throws (an empty
`definitions` array makes `meanings[0].definitions[0].definition` throw,
which lands in the `catch`). -/
def renderResponse : DictResponse → String
  | .ok [] => "No definition found."
  | .ok ([] :: _) => "Error fetching definition."
  | .ok ((d :: _) :: _) => if d = "" then "No definition found." else d
  | .httpFail => "No definition found."
  | .netFail => "Error fetching definition."

/-- The synchronous part of `handleDictionaryLookup` (lines 258-265): guard
on a valid cursor, record the selection, open the overlay, blank the
definition, and issue one outbound request for the cursor's word. -/
def handleDictionaryLookup (s : AppState) : AppState :=
  if h : s.currentWordIdx < s.chapterWords.length then
    let w := s.chapterWords[s.currentWordIdx]
    { s with selectedWord := some w,
             selectedWordIdx := some s.currentWordIdx,
             showDictionary := true,
             dictionaryDefinition := "",
             pendingLookups := s.pendingLookups ++ [⟨s.nextLookupId, w⟩],
             nextLookupId := s.nextLookupId + 1 }
  else s

/-- A pending request resolves with `resp` (the continuation after `await`,
lines 268-281): the displayed definition is overwritten unconditionally —
the handler keeps no issuance counter and never compares the resolving
request against the most recently issued one. -/
def resolveLookup (i : Nat) (resp : DictResponse) (s : AppState) : AppState :=
  match s.pendingLookups.find? (fun r => r.id == i) with
  | some _ =>
    { s with pendingLookups := s.pendingLookups.filter (fun r => r.id != i),
             dictionaryDefinition := renderResponse resp }
  | none => s

/-! ### Imports (lines 35-49, 75-144, 146-178, 180-196) -/

/-- A successful TXT import: `handleFileChange` (sets the file name and
clears the error) followed by `parseTxt`'s `onload` (lines 38-43).  Note it
touches neither `chapters` nor `selectedChapterIdx` nor `chapterWords`. -/
def parseTxtDone (fn text : String) (s : AppState) : AppState :=
  { s with fileName := fn, error := "",
           fileContent := text, words := splitWs text,
           currentWordIdx := 0, loading := false }

/-- Page texts joined as in `parsePdf` (lines 154-159): each page's text
runs joined by single spaces, pages concatenated with a trailing space. -/
def pdfText (pages : List (List String)) : String :=
  String.join (pages.map (fun items => String.intercalate " " items ++ " "))

/-- A successful PDF import (lines 150-163); like TXT it produces no
chapters. -/
def parsePdfDone (fn : String) (pages : List (List String)) (s : AppState) : AppState :=
  { s with fileName := fn, error := "",
           fileContent := pdfText pages, words := splitWs (pdfText pages),
           currentWordIdx := 0, loading := false }

/-- The message of the `setTimeout` callback (line 84). -/
def epubTimeoutMsg : String := "EPUB parsing timed out. This file may be incompatible."

/-- An EPUB import whose decode and extraction both succeed, producing
`arr`, with the extraction taking `dur` time units after `book.ready`.
The 20-unit timer (line 83) merely reports: if it fires (`20 < dur`) it sets
the error message and clears the loading flag, but nothing cancels the
extraction, and the subsequent code (lines 122-138) still installs whatever
chapter list was computed.  The empty-`arr` branch mirrors lines 123-129,
the non-empty branch lines 130-137. -/
def parseEpubDone (fn : String) (dur : Nat) (arr : List Chapter) (s : AppState) : AppState :=
  let s0 := { s with fileName := fn, error := "", loading := true }
  let s1 := if 20 < dur then { s0 with error := epubTimeoutMsg, loading := false } else s0
  match arr with
  | [] =>
    { s1 with error := "No chapters found in EPUB.", chapters := [],
              selectedChapterIdx := none, chapterWords := [],
              fileContent := "", words := [], loading := false }
  | ch :: _ =>
    { s1 with chapters := arr, selectedChapterIdx := some 0,
              chapterWords := splitWs ch.text, currentWordIdx := 0,
              fileContent := "", words := [], loading := false }

/-! ### Resume and persistence (lines 299-359) -/

/-- Embeds `handleResume` (lines 326-341) with the persisted tuple read from local
storage: records the pending resume intent and restores the file name.  The
stored values come from an earlier browser session against a possibly
different document, so the model places no constraint on them. -/
def handleResume (chIdx wIdx : Nat) (showCh : Bool) (fn : String) (s : AppState) : AppState :=
  { s with pendingResume := some ⟨chIdx, wIdx, showCh⟩, fileName := fn }

/-- The resume reconciler (`useEffect` on `[chapters]`, lines 344-359): when
a pending resume exists and `chapters[pending.selectedChapterIdx]` is
present, select that chapter, regenerate its words, and overwrite the cursor
and sidebar flag with the persisted values (the word index is applied
without any bounds check against the new chapter); only then is the pending
intent cleared.  In every other case nothing happens — in particular an
out-of-range pending intent is left in place. -/
def applyResume (s : AppState) : AppState :=
  match s.pendingResume with
  | some p =>
    match s.chapters[p.selectedChapterIdx]? with
    | some ch =>
      { s with selectedChapterIdx := some p.selectedChapterIdx,
               chapterWords := splitWs ch.text,
               currentWordIdx := p.currentWordIdx,
               showChapters := p.showChapters,
               pendingResume := none }
    | none => s
  | none => s

/-- The persisted tuple (lines 300-309). -/
structure PersistedSession where
  fileName : String
  selectedChapterIdx : Option Nat
  currentWordIdx : Nat
  showChapters : Bool
deriving DecidableEq

/-- What the persistence effect (lines 300-309) writes for a given state:
nothing while no file name is set, otherwise the full tuple. -/
def persistEffect (s : AppState) : Option PersistedSession :=
  if s.fileName = "" then none
  else some ⟨s.fileName, s.selectedChapterIdx, s.currentWordIdx, s.showChapters⟩

/-! ### Reachable session states

One constructor per user/environment event.  An EPUB import is immediately
followed by the reconciler effect, since that effect runs whenever the
`chapters` state changes. -/

inductive Reachable : AppState → Prop where
  | init : Reachable initState
  | play {s} : Reachable s → Reachable (handlePlay s)
  | pause {s} : Reachable s → Reachable (handlePause s)
  | reset {s} : Reachable s → Reachable (handleReset s)
  | selectChapter {s} (i : Nat) : Reachable s → Reachable (handleSelectChapter i s)
  | wordClick {s} (i : Nat) : Reachable s → i < s.chapterWords.length →
      Reachable (handleWordClick i s)
  | tick {s} (i : Nat) : Reachable s → Reachable (tickStep i s)
  | importTxt {s} (fn text : String) : Reachable s → Reachable (parseTxtDone fn text s)
  | importPdf {s} (fn : String) (pages : List (List String)) : Reachable s →
      Reachable (parsePdfDone fn pages s)
  | importEpub {s} (fn : String) (dur : Nat) (arr : List Chapter) : Reachable s →
      Reachable (applyResume (parseEpubDone fn dur arr s))
  | resume {s} (chIdx wIdx : Nat) (showCh : Bool) (fn : String) : Reachable s →
      Reachable (handleResume chIdx wIdx showCh fn s)
  | lookup {s} : Reachable s → Reachable (handleDictionaryLookup s)
  | resolve {s} (i : Nat) (resp : DictResponse) : Reachable s →
      Reachable (resolveLookup i resp s)
  | toggleChapters {s} (b : Bool) : Reachable s → Reachable (setShowChapters b s)

/-! ### Operation equations

Unconditional or guarded rewriting equations for each operation, used by the
invariant proofs below. -/

theorem handlePlay_empty {s : AppState} (h : s.chapterWords.isEmpty = true) :
    handlePlay s = s := by
  simp [handlePlay, h]

theorem handlePlay_playing {s : AppState} {i : Nat}
    (h : s.chapterWords.isEmpty = false) (hI : s.intervalId = some i) :
    handlePlay s = { s with isPlaying := true, showChapters := false } := by
  simp [handlePlay, h, hI]

theorem handlePlay_fresh {s : AppState}
    (h : s.chapterWords.isEmpty = false) (hI : s.intervalId = none) :
    handlePlay s =
      { s with isPlaying := true, showChapters := false,
               intervalId := some s.nextTimerId,
               activeTimers := s.activeTimers ++ [⟨s.nextTimerId, s.chapterWords.length⟩],
               nextTimerId := s.nextTimerId + 1 } := by
  simp [handlePlay, h, hI]

theorem handlePause_none {s : AppState} (hI : s.intervalId = none) :
    handlePause s = { s with isPlaying := false } := by
  simp [handlePause, hI]

theorem handlePause_some {s : AppState} {i : Nat} (hI : s.intervalId = some i) :
    handlePause s = { s with isPlaying := false, intervalId := none,
                             activeTimers := clearTimer i s.activeTimers } := by
  simp [handlePause, hI]

theorem tickStep_dead {s : AppState} {i : Nat}
    (hf : s.activeTimers.find? (fun t => t.id == i) = none) : tickStep i s = s := by
  simp [tickStep, hf]

theorem tickStep_live {s : AppState} {i : Nat} {t : Timer}
    (hf : s.activeTimers.find? (fun t => t.id == i) = some t) :
    tickStep i s = intervalTick t s := by
  simp [tickStep, hf]

theorem intervalTick_adv {s : AppState} {t : Timer} (h : s.currentWordIdx < t.len - 1) :
    intervalTick t s = { s with currentWordIdx := s.currentWordIdx + 1 } := by
  simp [intervalTick, h]

theorem intervalTick_stop {s : AppState} {t : Timer} (h : ¬ s.currentWordIdx < t.len - 1) :
    intervalTick t s = { s with isPlaying := false, intervalId := none,
                                activeTimers := clearTimer t.id s.activeTimers } := by
  simp [intervalTick, h]

theorem handleSelectChapter_out {s : AppState} {i : Nat} (hc : s.chapters[i]? = none) :
    handleSelectChapter i s = s := by
  simp [handleSelectChapter, hc]

theorem handleSelectChapter_in_none {s : AppState} {i : Nat} {ch : Chapter}
    (hc : s.chapters[i]? = some ch) (hI : s.intervalId = none) :
    handleSelectChapter i s =
      { s with selectedChapterIdx := some i, chapterWords := splitWs ch.text,
               currentWordIdx := 0, isPlaying := false, intervalId := none } := by
  simp [handleSelectChapter, hc, hI]

theorem handleSelectChapter_in_some {s : AppState} {i j : Nat} {ch : Chapter}
    (hc : s.chapters[i]? = some ch) (hI : s.intervalId = some j) :
    handleSelectChapter i s =
      { s with selectedChapterIdx := some i, chapterWords := splitWs ch.text,
               currentWordIdx := 0, isPlaying := false, intervalId := none,
               activeTimers := clearTimer j s.activeTimers } := by
  simp [handleSelectChapter, hc, hI]

theorem handleWordClick_none {s : AppState} {i : Nat} (hI : s.intervalId = none) :
    handleWordClick i s =
      { s with currentWordIdx := i, isPlaying := false, intervalId := none,
               selectedWord := s.chapterWords[i]?, selectedWordIdx := some i,
               showDictionary := false } := by
  simp [handleWordClick, hI]

theorem handleWordClick_some {s : AppState} {i j : Nat} (hI : s.intervalId = some j) :
    handleWordClick i s =
      { s with currentWordIdx := i, isPlaying := false, intervalId := none,
               activeTimers := clearTimer j s.activeTimers,
               selectedWord := s.chapterWords[i]?, selectedWordIdx := some i,
               showDictionary := false } := by
  simp [handleWordClick, hI]

theorem handleDictionaryLookup_in {s : AppState} (h : s.currentWordIdx < s.chapterWords.length) :
    handleDictionaryLookup s =
      { s with selectedWord := some s.chapterWords[s.currentWordIdx],
               selectedWordIdx := some s.currentWordIdx,
               showDictionary := true, dictionaryDefinition := "",
               pendingLookups := s.pendingLookups ++
                 [⟨s.nextLookupId, s.chapterWords[s.currentWordIdx]⟩],
               nextLookupId := s.nextLookupId + 1 } := by
  simp [handleDictionaryLookup, h]

theorem handleDictionaryLookup_out {s : AppState}
    (h : ¬ s.currentWordIdx < s.chapterWords.length) : handleDictionaryLookup s = s := by
  simp [handleDictionaryLookup, h]

theorem resolveLookup_dead {s : AppState} {i : Nat} {resp : DictResponse}
    (hf : s.pendingLookups.find? (fun r => r.id == i) = none) :
    resolveLookup i resp s = s := by
  simp [resolveLookup, hf]

theorem resolveLookup_live {s : AppState} {i : Nat} {resp : DictResponse} {r : LookupReq}
    (hf : s.pendingLookups.find? (fun r => r.id == i) = some r) :
    resolveLookup i resp s =
      { s with pendingLookups := s.pendingLookups.filter (fun r => r.id != i),
               dictionaryDefinition := renderResponse resp } := by
  simp [resolveLookup, hf]

theorem applyResume_skip {s : AppState}
    (h : ∀ p, s.pendingResume = some p → s.chapters[p.selectedChapterIdx]? = none) :
    applyResume s = s := by
  rcases hp : s.pendingResume with _ | p
  · simp [applyResume, hp]
  · simp [applyResume, hp, h p hp]

theorem applyResume_none {s : AppState} (hp : s.pendingResume = none) :
    applyResume s = s := by
  simp [applyResume, hp]

theorem applyResume_hit {s : AppState} {p : PendingResume} {ch : Chapter}
    (hp : s.pendingResume = some p) (hc : s.chapters[p.selectedChapterIdx]? = some ch) :
    applyResume s =
      { s with selectedChapterIdx := some p.selectedChapterIdx,
               chapterWords := splitWs ch.text,
               currentWordIdx := p.currentWordIdx,
               showChapters := p.showChapters,
               pendingResume := none } := by
  simp [applyResume, hp, hc]

theorem parseEpubDone_nil {s : AppState} {fn : String} {dur : Nat} :
    parseEpubDone fn dur [] s =
      { s with fileName := fn,
               error := "No chapters found in EPUB.", chapters := [],
               selectedChapterIdx := none, chapterWords := [],
               fileContent := "", words := [], loading := false } := by
  by_cases hd : 20 < dur <;> simp [parseEpubDone, hd]

theorem parseEpubDone_cons {s : AppState} {fn : String} {dur : Nat} {ch : Chapter}
    {rest : List Chapter} :
    parseEpubDone fn dur (ch :: rest) s =
      { s with fileName := fn,
               error := if 20 < dur then epubTimeoutMsg else "",
               chapters := ch :: rest, selectedChapterIdx := some 0,
               chapterWords := splitWs ch.text, currentWordIdx := 0,
               fileContent := "", words := [], loading := false } := by
  by_cases hd : 20 < dur <;> simp [parseEpubDone, hd]

/-! ### The tick-source invariant -/

/-- The live intervals of the page are exactly the one recorded in
`intervalId` (with the captured length of its closure), or none at all. -/
def timerInv (s : AppState) : Prop :=
  match s.intervalId with
  | none => s.activeTimers = []
  | some i => ∃ len, s.activeTimers = [⟨i, len⟩]

theorem timerInv_def {s : AppState} :
    timerInv s ↔ ((s.intervalId = none → s.activeTimers = []) ∧
      (∀ i, s.intervalId = some i → ∃ len, s.activeTimers = [⟨i, len⟩])) := by
  unfold timerInv
  rcases hI : s.intervalId with _ | i <;> simp [hI]

theorem timerInv_length {s : AppState} (h : timerInv s) : s.activeTimers.length ≤ 1 := by
  rw [timerInv_def] at h
  rcases hI : s.intervalId with _ | i
  · simp [h.1 hI]
  · rcases h.2 i hI with ⟨len, hl⟩
    simp [hl]

theorem clearTimer_single (i len : Nat) : clearTimer i [⟨i, len⟩] = [] := by
  simp [clearTimer]

theorem timerInv_pause {s : AppState} (h : timerInv s) :
    (handlePause s).activeTimers = [] ∧ (handlePause s).intervalId = none := by
  rw [timerInv_def] at h
  rcases hI : s.intervalId with _ | i
  · rw [handlePause_none hI]
    simp [h.1 hI, hI]
  · rcases h.2 i hI with ⟨len, hl⟩
    rw [handlePause_some hI]
    simp [hl, clearTimer_single]

theorem reachable_timerInv {s : AppState} (h : Reachable s) : timerInv s := by
  induction h with
  | init => simp [timerInv, initState]
  | @play s _ ih =>
      rcases he : s.chapterWords.isEmpty
      · rcases hI : s.intervalId with _ | i
        · rw [handlePlay_fresh he hI, timerInv_def]
          have h0 : s.activeTimers = [] := ((timerInv_def.1 ih).1) hI
          simp [h0]
        · rw [handlePlay_playing he hI, timerInv_def]
          rcases (timerInv_def.1 ih).2 i hI with ⟨len, hl⟩
          simp [hI, hl]
      · rw [handlePlay_empty he]; exact ih
  | @pause s _ ih =>
      have h2 := timerInv_pause ih
      rw [timerInv_def]
      simp [h2.1, h2.2]
  | @reset s _ ih =>
      have ih' : timerInv { s with currentWordIdx := 0 } := by
        rw [timerInv_def] at ih ⊢; exact ih
      have h2 := timerInv_pause ih'
      unfold handleReset
      rw [timerInv_def]
      simp [h2.1, h2.2]
  | @selectChapter s i _ ih =>
      rcases hc : s.chapters[i]? with _ | ch
      · rw [handleSelectChapter_out hc]; exact ih
      · rcases hI : s.intervalId with _ | j
        · rw [handleSelectChapter_in_none hc hI, timerInv_def]
          simp [(timerInv_def.1 ih).1 hI]
        · rcases (timerInv_def.1 ih).2 j hI with ⟨len, hl⟩
          rw [handleSelectChapter_in_some hc hI, timerInv_def]
          simp [hl, clearTimer_single]
  | @wordClick s i _ _ ih =>
      rcases hI : s.intervalId with _ | j
      · rw [handleWordClick_none hI, timerInv_def]
        simp [(timerInv_def.1 ih).1 hI]
      · rcases (timerInv_def.1 ih).2 j hI with ⟨len, hl⟩
        rw [handleWordClick_some hI, timerInv_def]
        simp [hl, clearTimer_single]
  | @tick s i _ ih =>
      rcases hf : s.activeTimers.find? (fun t => t.id == i) with _ | t
      · rw [tickStep_dead hf]; exact ih
      · rw [tickStep_live hf]
        have hmem : t ∈ s.activeTimers := List.mem_of_find?_eq_some hf
        rcases hI : s.intervalId with _ | j
        · rw [(timerInv_def.1 ih).1 hI] at hmem
          simp at hmem
        · rcases (timerInv_def.1 ih).2 j hI with ⟨len, hl⟩
          rw [hl] at hmem
          simp at hmem
          by_cases hadv : s.currentWordIdx < t.len - 1
          · rw [intervalTick_adv hadv, timerInv_def]
            simp [hI, hl]
          · rw [intervalTick_stop hadv, timerInv_def]
            simp [hl, hmem, clearTimer_single]
  | @importTxt s fn text _ ih =>
      rw [timerInv_def] at ih ⊢; exact ih
  | @importPdf s fn pages _ ih =>
      rw [timerInv_def] at ih ⊢; exact ih
  | @importEpub s fn dur arr _ ih =>
      have hmid : timerInv (parseEpubDone fn dur arr s) := by
        rcases arr with _ | ⟨ch, rest⟩
        · rw [parseEpubDone_nil, timerInv_def]
          rw [timerInv_def] at ih; exact ih
        · rw [parseEpubDone_cons, timerInv_def]
          rw [timerInv_def] at ih; exact ih
      rcases hp : (parseEpubDone fn dur arr s).pendingResume with _ | p
      · rw [applyResume_none hp]; exact hmid
      · rcases hc : (parseEpubDone fn dur arr s).chapters[p.selectedChapterIdx]? with _ | ch
        · rw [applyResume_skip (by intro q hq; rw [hp] at hq; cases hq; exact hc)]
          exact hmid
        · rw [applyResume_hit hp hc, timerInv_def]
          rw [timerInv_def] at hmid; exact hmid
  | @resume s chIdx wIdx showCh fn _ ih =>
      rw [timerInv_def] at ih ⊢; exact ih
  | @lookup s _ ih =>
      by_cases h : s.currentWordIdx < s.chapterWords.length
      · rw [handleDictionaryLookup_in h, timerInv_def]
        rw [timerInv_def] at ih; exact ih
      · rw [handleDictionaryLookup_out h]; exact ih
  | @resolve s i resp _ ih =>
      rcases hf : s.pendingLookups.find? (fun r => r.id == i) with _ | r
      · rw [resolveLookup_dead hf]; exact ih
      · rw [resolveLookup_live hf, timerInv_def]
        rw [timerInv_def] at ih; exact ih
  | @toggleChapters s b _ ih =>
      rw [timerInv_def] at ih ⊢; exact ih

/-! ## Claim C4 -/

/-- Claim C4: at most one active tick source (repeating playback timer)
exists at any time in any reachable session state; `handlePlay` while a
timer is already recorded creates no new timer (and allocates no new timer
id); after `handlePause`, `handleReset`, or `handleSelectChapter` (on an
existing chapter) no timer is live, and a tick event in a timer-free state
changes nothing, so no further cursor advancement occurs without a
subsequent `handlePlay`. -/
theorem claim_C4_single_tick_source (s : AppState) (h : Reachable s) :
    s.activeTimers.length ≤ 1
    ∧ (handlePlay s).activeTimers.length ≤ 1
    ∧ (s.intervalId.isSome → (handlePlay s).activeTimers = s.activeTimers
        ∧ (handlePlay s).nextTimerId = s.nextTimerId)
    ∧ (handlePause s).activeTimers = []
    ∧ (handleReset s).activeTimers = []
    ∧ (∀ i ch, s.chapters[i]? = some ch → (handleSelectChapter i s).activeTimers = [])
    ∧ (∀ s2 : AppState, s2.activeTimers = [] → ∀ i, tickStep i s2 = s2) := by
  have hinv := reachable_timerInv h
  have hres : (handleReset s).activeTimers = [] := by
    have hinv' : timerInv { s with currentWordIdx := 0 } := by
      rw [timerInv_def] at hinv ⊢; exact hinv
    have := timerInv_pause hinv'
    unfold handleReset
    exact this.1
  refine ⟨timerInv_length hinv, ?_, ?_, (timerInv_pause hinv).1, hres, ?_, ?_⟩
  · rcases he : s.chapterWords.isEmpty
    · rcases hI : s.intervalId with _ | i
      · rw [handlePlay_fresh he hI]
        simp [(timerInv_def.1 hinv).1 hI]
      · rw [handlePlay_playing he hI]
        simpa using timerInv_length hinv
    · rw [handlePlay_empty he]
      exact timerInv_length hinv
  · intro hSome
    rcases hI : s.intervalId with _ | i
    · rw [hI] at hSome; cases hSome
    · rcases he : s.chapterWords.isEmpty
      · rw [handlePlay_playing he hI]
        exact ⟨rfl, rfl⟩
      · rw [handlePlay_empty he]
        exact ⟨rfl, rfl⟩
  · intro i ch hc
    rcases hI : s.intervalId with _ | j
    · rw [handleSelectChapter_in_none hc hI]
      exact (timerInv_def.1 hinv).1 hI
    · rcases (timerInv_def.1 hinv).2 j hI with ⟨len, hl⟩
      rw [handleSelectChapter_in_some hc hI]
      simp [hl, clearTimer_single]
  · intro s2 h2 i
    apply tickStep_dead
    rw [h2]
    rfl

/-- Witness for C4, at the (reachable) initial state. -/
theorem claim_C4_witness :
    initState.activeTimers.length ≤ 1
    ∧ (handlePlay initState).activeTimers.length ≤ 1
    ∧ (handlePause initState).activeTimers = []
    ∧ (handleReset initState).activeTimers = []
    ∧ tickStep 0 initState = initState := by
  obtain ⟨h1, h2, _, h4, h5, _, h7⟩ := claim_C4_single_tick_source initState Reachable.init
  exact ⟨h1, h2, h4, h5, h7 initState rfl 0⟩

/-! ## Claim C10 -/

/-- Claim C10: whenever `handlePlay` runs with a non-empty token sequence —
also when playback is already in progress — it sets the (persisted)
`showChapters` flag to `false` and marks the session as playing, while all
other session fields (cursor, chapter list, chapter selection, file name,
words, file content, word selection, pending resume) are unchanged by the
call itself; accordingly the persistence effect writes a tuple whose
`showChapters` component is `false`. -/
theorem claim_C10_play_hides_chapters (s : AppState) (h : s.chapterWords.isEmpty = false) :
    (handlePlay s).showChapters = false
    ∧ (handlePlay s).isPlaying = true
    ∧ (handlePlay s).currentWordIdx = s.currentWordIdx
    ∧ (handlePlay s).chapters = s.chapters
    ∧ (handlePlay s).selectedChapterIdx = s.selectedChapterIdx
    ∧ (handlePlay s).chapterWords = s.chapterWords
    ∧ (handlePlay s).fileName = s.fileName
    ∧ (handlePlay s).words = s.words
    ∧ (handlePlay s).fileContent = s.fileContent
    ∧ (handlePlay s).selectedWord = s.selectedWord
    ∧ (handlePlay s).selectedWordIdx = s.selectedWordIdx
    ∧ (handlePlay s).pendingResume = s.pendingResume
    ∧ persistEffect (handlePlay s) =
        (if s.fileName = "" then none
         else some ⟨s.fileName, s.selectedChapterIdx, s.currentWordIdx, false⟩) := by
  rcases hI : s.intervalId with _ | i
  · rw [handlePlay_fresh h hI]
    refine ⟨rfl, rfl, rfl, rfl, rfl, rfl, rfl, rfl, rfl, rfl, rfl, rfl, rfl⟩
  · rw [handlePlay_playing h hI]
    refine ⟨rfl, rfl, rfl, rfl, rfl, rfl, rfl, rfl, rfl, rfl, rfl, rfl, rfl⟩

/-- A session state used to witness C10: a file is loaded and playback is
already running. -/
def c10State : AppState :=
  { initState with fileName := "book.epub", chapterWords := ["alpha", "beta"],
                   isPlaying := true, intervalId := some 0,
                   activeTimers := [⟨0, 2⟩], nextTimerId := 1 }

/-- Witness for C10 at a concrete playing state. -/
theorem claim_C10_witness :
    (handlePlay c10State).showChapters = false
    ∧ (handlePlay c10State).isPlaying = true
    ∧ (handlePlay c10State).currentWordIdx = c10State.currentWordIdx
    ∧ (handlePlay c10State).chapterWords = c10State.chapterWords
    ∧ persistEffect (handlePlay c10State) =
        (if c10State.fileName = "" then none
         else some ⟨c10State.fileName, c10State.selectedChapterIdx,
                    c10State.currentWordIdx, false⟩) := by
  obtain ⟨h1, h2, h3, _, _, h6, _, _, _, _, _, _, h13⟩ :=
    claim_C10_play_hides_chapters c10State (by decide)
  exact ⟨h1, h2, h3, h6, h13⟩

/-! ## Claim C2 -/

/-- C2 counterexample trace: an EPUB import whose extraction takes 25 time
units (beyond the 20-unit ceiling) and yields one chapter. -/
def c2State : AppState :=
  applyResume (parseEpubDone "book.epub" 25 [⟨"Chapter 1", "hello world", 0⟩] initState)

/-- Claim C2 counterexample: when the extraction overruns the 20-unit
ceiling, the timeout error is reported, yet the load is *not* abandoned —
the computed chapter list is still installed into the playback state
(chapter 0 selected, words tokenized), refuting "the load is abandoned ...
and any partial chapter results already computed are discarded". -/
theorem claim_C2_counterexample :
    c2State.error = epubTimeoutMsg
    ∧ c2State.chapters = [⟨"Chapter 1", "hello world", 0⟩]
    ∧ c2State.selectedChapterIdx = some 0
    ∧ c2State.chapterWords = ["hello", "world"]
    ∧ c2State.currentWordIdx = 0
    ∧ Reachable c2State :=
  ⟨by decide, by decide, by decide, by decide, by decide,
   Reachable.importEpub "book.epub" 25 [⟨"Chapter 1", "hello world", 0⟩] Reachable.init⟩

/-- Claim C2 as amended: if extraction has not completed within the 20-unit
ceiling, the timeout is reported (error message set, loading flag cleared),
but nothing is cancelled or discarded: once extraction finishes, the
complete chapter list is installed, chapter 0 is selected and tokenized,
and the cursor is reset — the chapters are exposed to playback despite the
`TimedOut` report. -/
theorem claim_C2_amended (fn : String) (dur : Nat) (ch : Chapter) (rest : List Chapter)
    (s : AppState) (hd : 20 < dur) :
    (parseEpubDone fn dur (ch :: rest) s).error = epubTimeoutMsg
    ∧ (parseEpubDone fn dur (ch :: rest) s).chapters = ch :: rest
    ∧ (parseEpubDone fn dur (ch :: rest) s).selectedChapterIdx = some 0
    ∧ (parseEpubDone fn dur (ch :: rest) s).chapterWords = splitWs ch.text
    ∧ (parseEpubDone fn dur (ch :: rest) s).currentWordIdx = 0
    ∧ (parseEpubDone fn dur (ch :: rest) s).loading = false := by
  rw [parseEpubDone_cons]
  refine ⟨?_, rfl, rfl, rfl, rfl, rfl⟩
  simp [hd]

/-- Witness for C2's amended claim at a concrete overrunning import. -/
theorem claim_C2_witness :
    (parseEpubDone "b.epub" 21 [⟨"A", "x y", 0⟩] initState).error = epubTimeoutMsg
    ∧ (parseEpubDone "b.epub" 21 [⟨"A", "x y", 0⟩] initState).chapters = [⟨"A", "x y", 0⟩]
    ∧ (parseEpubDone "b.epub" 21 [⟨"A", "x y", 0⟩] initState).selectedChapterIdx = some 0
    ∧ (parseEpubDone "b.epub" 21 [⟨"A", "x y", 0⟩] initState).chapterWords =
        splitWs (Chapter.mk "A" "x y" 0).text
    ∧ (parseEpubDone "b.epub" 21 [⟨"A", "x y", 0⟩] initState).currentWordIdx = 0
    ∧ (parseEpubDone "b.epub" 21 [⟨"A", "x y", 0⟩] initState).loading = false :=
  claim_C2_amended "b.epub" 21 ⟨"A", "x y", 0⟩ [] initState (by decide)

/-! ## Claim C3 -/

/-- C3 counterexample trace, first import: a resume intent for chapter 2 is
pending, but the fresh import yields only two chapters (indices 0, 1). -/
def c3Mid : AppState :=
  applyResume (parseEpubDone "book.epub" 0 [⟨"A", "a b", 0⟩, ⟨"B", "c d", 1⟩]
    (handleResume 2 5 true "book.epub" initState))

/-- C3 counterexample trace, second import: a later import yields three
chapters, so index 2 now exists. -/
def c3Final : AppState :=
  applyResume (parseEpubDone "other.epub" 0
    [⟨"A", "a b", 0⟩, ⟨"B", "c d", 1⟩, ⟨"C", "e f g h i j", 2⟩] c3Mid)

/-- Claim C3 counterexample: after the first import the out-of-range
pending resume is *not* discarded (it survives in `pendingResume`), and the
second import then applies it — selecting chapter 2 at word 5 — refuting
"the PendingResume is discarded without effect (it can never be applied by
any later import)".  The session does start at chapter 0, word 0, after the
first import. -/
theorem claim_C3_counterexample :
    c3Mid.pendingResume = some ⟨2, 5, true⟩
    ∧ c3Mid.selectedChapterIdx = some 0
    ∧ c3Mid.currentWordIdx = 0
    ∧ c3Final.selectedChapterIdx = some 2
    ∧ c3Final.currentWordIdx = 5
    ∧ c3Final.pendingResume = none
    ∧ Reachable c3Final :=
  ⟨by decide, by decide, by decide, by decide, by decide, by decide,
   Reachable.importEpub "other.epub" 0
     [⟨"A", "a b", 0⟩, ⟨"B", "c d", 1⟩, ⟨"C", "e f g h i j", 2⟩]
     (Reachable.importEpub "book.epub" 0 [⟨"A", "a b", 0⟩, ⟨"B", "c d", 1⟩]
       (Reachable.resume 2 5 true "book.epub" Reachable.init))⟩

/-- Claim C3 as amended: when a new import succeeds and the outstanding
`PendingResume`'s chapter index is out of range of the new chapter list, the
reconciler simply does not fire: the session starts at chapter 0 with word
index 0 as for a fresh import, but the `PendingResume` is *kept*, remaining
eligible to be applied by any later import whose chapter list is long
enough. -/
theorem claim_C3_amended (fn : String) (dur : Nat) (ch : Chapter) (rest : List Chapter)
    (s : AppState) (p : PendingResume) (hp : s.pendingResume = some p)
    (hout : (ch :: rest : List Chapter)[p.selectedChapterIdx]? = none) :
    (applyResume (parseEpubDone fn dur (ch :: rest) s)).pendingResume = some p
    ∧ (applyResume (parseEpubDone fn dur (ch :: rest) s)).selectedChapterIdx = some 0
    ∧ (applyResume (parseEpubDone fn dur (ch :: rest) s)).currentWordIdx = 0
    ∧ (applyResume (parseEpubDone fn dur (ch :: rest) s)).chapterWords = splitWs ch.text := by
  have hp' : (parseEpubDone fn dur (ch :: rest) s).pendingResume = some p := by
    rw [parseEpubDone_cons]; exact hp
  have hc' : (parseEpubDone fn dur (ch :: rest) s).chapters[p.selectedChapterIdx]? = none := by
    rw [parseEpubDone_cons]; exact hout
  have hskip : applyResume (parseEpubDone fn dur (ch :: rest) s) =
      parseEpubDone fn dur (ch :: rest) s := by
    apply applyResume_skip
    intro q hq
    rw [hp'] at hq
    cases hq
    exact hc'
  rw [hskip, parseEpubDone_cons]
  exact ⟨hp, rfl, rfl, rfl⟩

/-- Witness for C3's amended claim: pending chapter index 1, import with a
single chapter. -/
theorem claim_C3_witness :
    (applyResume (parseEpubDone "b.epub" 0 [⟨"A", "a b", 0⟩]
        (handleResume 1 7 true "b.epub" initState))).pendingResume = some ⟨1, 7, true⟩
    ∧ (applyResume (parseEpubDone "b.epub" 0 [⟨"A", "a b", 0⟩]
        (handleResume 1 7 true "b.epub" initState))).selectedChapterIdx = some 0
    ∧ (applyResume (parseEpubDone "b.epub" 0 [⟨"A", "a b", 0⟩]
        (handleResume 1 7 true "b.epub" initState))).currentWordIdx = 0
    ∧ (applyResume (parseEpubDone "b.epub" 0 [⟨"A", "a b", 0⟩]
        (handleResume 1 7 true "b.epub" initState))).chapterWords =
        splitWs (Chapter.mk "A" "a b" 0).text :=
  claim_C3_amended "b.epub" 0 ⟨"A", "a b", 0⟩ [] (handleResume 1 7 true "b.epub" initState)
    ⟨1, 7, true⟩ (by decide) (by decide)

/-! ## Claim C8 -/

/-- C8 counterexample trace: a TXT import into a fresh session. -/
def c8Txt : AppState := parseTxtDone "notes.txt" "hello world" initState

/-- C8 counterexample trace: the same TXT import after a previous EPUB
load left a chapter list behind. -/
def c8Prior : AppState :=
  applyResume (parseEpubDone "book.epub" 0 [⟨"A", "a b", 0⟩] initState)

def c8Txt2 : AppState := parseTxtDone "notes.txt" "hello world" c8Prior

/-- Claim C8 counterexample: a successful TXT import does *not* produce a
one-chapter list: on a fresh session the chapter list stays empty and no
chapter is selected (the text only lands in `fileContent`/`words`), and
after a previous EPUB import the old chapter list and its tokenized words
survive the TXT import unreplaced — refuting "the session's chapter list
consists of exactly one chapter ... replacing any chapter list from a
previous import; the loader's caller then selects that chapter 0". -/
theorem claim_C8_counterexample :
    c8Txt.chapters = []
    ∧ c8Txt.selectedChapterIdx = none
    ∧ c8Txt.words = ["hello", "world"]
    ∧ c8Txt2.chapters = [⟨"A", "a b", 0⟩]
    ∧ c8Txt2.chapterWords = ["a", "b"]
    ∧ c8Txt2.fileContent = "hello world"
    ∧ Reachable c8Txt
    ∧ Reachable c8Txt2 :=
  ⟨by decide, by decide, by decide, by decide, by decide, by decide,
   Reachable.importTxt "notes.txt" "hello world" Reachable.init,
   Reachable.importTxt "notes.txt" "hello world"
     (Reachable.importEpub "book.epub" 0 [⟨"A", "a b", 0⟩] Reachable.init)⟩

/-- Claim C8 as amended: a successful TXT import (and likewise PDF) stores
the file's raw text in `fileContent` and its whitespace-split tokens in
`words`, resetting the cursor to 0, but creates no chapter: the chapter
list, the chapter selection and the active chapter's token sequence are all
left exactly as the previous import set them. -/
theorem claim_C8_amended (fn text : String) (pages : List (List String)) (s : AppState) :
    (parseTxtDone fn text s).chapters = s.chapters
    ∧ (parseTxtDone fn text s).selectedChapterIdx = s.selectedChapterIdx
    ∧ (parseTxtDone fn text s).chapterWords = s.chapterWords
    ∧ (parseTxtDone fn text s).fileContent = text
    ∧ (parseTxtDone fn text s).words = splitWs text
    ∧ (parseTxtDone fn text s).currentWordIdx = 0
    ∧ (parsePdfDone fn pages s).chapters = s.chapters
    ∧ (parsePdfDone fn pages s).selectedChapterIdx = s.selectedChapterIdx
    ∧ (parsePdfDone fn pages s).chapterWords = s.chapterWords
    ∧ (parsePdfDone fn pages s).fileContent = pdfText pages
    ∧ (parsePdfDone fn pages s).words = splitWs (pdfText pages)
    ∧ (parsePdfDone fn pages s).currentWordIdx = 0 :=
  ⟨rfl, rfl, rfl, rfl, rfl, rfl, rfl, rfl, rfl, rfl, rfl, rfl⟩

/-! ## Claim C5 -/

/-- C5 trace: import a 4-token chapter. -/
def c5Start : AppState :=
  applyResume (parseEpubDone "book.epub" 0 [⟨"Chapter 1", "a b c d", 0⟩] initState)

/-- C5 trace: press Play. -/
def c5Playing : AppState := handlePlay c5Start

/-- C5 trace: four interval ticks; the last one auto-stops playback. -/
def c5Fin : AppState := tickStep 0 (tickStep 0 (tickStep 0 (tickStep 0 c5Playing)))

/-- Claim C5 counterexample: after natural completion of the 4-token
chapter (cursor ran 0,1,2,3, then the timer stopped and the state is Idle
at word 3), a further `handlePlay` is *not* a no-op: it flips `isPlaying`
back to `true` and starts a fresh tick source (interval id 1), refuting
"no tick source is created, no state field changes".  (The cursor itself
does stay at 3.) -/
theorem claim_C5_counterexample :
    c5Playing.currentWordIdx = 0
    ∧ (tickStep 0 c5Playing).currentWordIdx = 1
    ∧ (tickStep 0 (tickStep 0 c5Playing)).currentWordIdx = 2
    ∧ (tickStep 0 (tickStep 0 (tickStep 0 c5Playing))).currentWordIdx = 3
    ∧ c5Fin.currentWordIdx = 3
    ∧ c5Fin.isPlaying = false
    ∧ c5Fin.intervalId = none
    ∧ c5Fin.activeTimers = []
    ∧ c5Fin.chapterWords = ["a", "b", "c", "d"]
    ∧ Reachable c5Fin
    ∧ (handlePlay c5Fin).isPlaying = true
    ∧ (handlePlay c5Fin).intervalId = some 1
    ∧ (handlePlay c5Fin).activeTimers = [⟨1, 4⟩]
    ∧ (handlePlay c5Fin).currentWordIdx = 3 :=
  ⟨by decide, by decide, by decide, by decide, by decide, by decide, by decide,
   by decide, by decide,
   Reachable.tick 0 (Reachable.tick 0 (Reachable.tick 0 (Reachable.tick 0
     (Reachable.play (Reachable.importEpub "book.epub" 0
       [⟨"Chapter 1", "a b c d", 0⟩] Reachable.init))))),
   by decide, by decide, by decide, by decide⟩

/-- Claim C5 as amended: `handlePlay` on a finished chapter
(`currentWordIdx = length - 1`, no live timer) is not a no-op — it sets
`isPlaying`, hides the chapter sidebar and starts a tick source — but its
first tick immediately stops that tick source and returns to the idle
state, leaving the cursor unchanged at the last token; so after natural
completion a further Play leaves the cursor where it was, at the price of a
transient Playing state and the sidebar being hidden. -/
theorem claim_C5_amended (s : AppState) (hne : s.chapterWords.isEmpty = false)
    (hlast : s.currentWordIdx = s.chapterWords.length - 1)
    (hI : s.intervalId = none) (hT : s.activeTimers = []) :
    (handlePlay s).isPlaying = true
    ∧ (handlePlay s).showChapters = false
    ∧ (handlePlay s).intervalId = some s.nextTimerId
    ∧ (handlePlay s).currentWordIdx = s.currentWordIdx
    ∧ (tickStep s.nextTimerId (handlePlay s)).currentWordIdx = s.currentWordIdx
    ∧ (tickStep s.nextTimerId (handlePlay s)).isPlaying = false
    ∧ (tickStep s.nextTimerId (handlePlay s)).intervalId = none
    ∧ (tickStep s.nextTimerId (handlePlay s)).activeTimers = []
    ∧ (tickStep s.nextTimerId (handlePlay s)).chapterWords = s.chapterWords := by
  have hplay := handlePlay_fresh hne hI
  have hfind : (handlePlay s).activeTimers.find? (fun t => t.id == s.nextTimerId)
      = some ⟨s.nextTimerId, s.chapterWords.length⟩ := by
    rw [hplay]
    simp [hT]
  have htick : tickStep s.nextTimerId (handlePlay s)
      = intervalTick ⟨s.nextTimerId, s.chapterWords.length⟩ (handlePlay s) :=
    tickStep_live hfind
  have hcur : (handlePlay s).currentWordIdx = s.currentWordIdx := by rw [hplay]
  have hstop : ¬ (handlePlay s).currentWordIdx <
      (Timer.mk s.nextTimerId s.chapterWords.length).len - 1 := by
    rw [hcur, hlast]
    exact Nat.lt_irrefl _
  rw [htick, intervalTick_stop hstop]
  refine ⟨?_, ?_, ?_, hcur, hcur, rfl, rfl, ?_, ?_⟩
  · rw [hplay]
  · rw [hplay]
  · rw [hplay]
  · show clearTimer s.nextTimerId (handlePlay s).activeTimers = []
    rw [hplay]
    simp [hT, clearTimer]
  · show (handlePlay s).chapterWords = s.chapterWords
    rw [hplay]

/-- A finished 2-token chapter state, for C5's witness. -/
def c5w : AppState :=
  { initState with chapterWords := ["x", "y"], currentWordIdx := 1 }

/-- Witness for C5's amended claim at a concrete finished 2-token state. -/
theorem claim_C5_witness :
    (handlePlay c5w).isPlaying = true
    ∧ (handlePlay c5w).showChapters = false
    ∧ (handlePlay c5w).intervalId = some c5w.nextTimerId
    ∧ (handlePlay c5w).currentWordIdx = c5w.currentWordIdx
    ∧ (tickStep c5w.nextTimerId (handlePlay c5w)).currentWordIdx = c5w.currentWordIdx
    ∧ (tickStep c5w.nextTimerId (handlePlay c5w)).isPlaying = false
    ∧ (tickStep c5w.nextTimerId (handlePlay c5w)).intervalId = none
    ∧ (tickStep c5w.nextTimerId (handlePlay c5w)).activeTimers = []
    ∧ (tickStep c5w.nextTimerId (handlePlay c5w)).chapterWords = c5w.chapterWords :=
  claim_C5_amended c5w (by decide) (by decide) (by decide) (by decide)

/-! ## Claim C6 -/

/-- C6 trace: import a chapter whose words are "alpha beta". -/
def c6S0 : AppState :=
  applyResume (parseEpubDone "book.epub" 0 [⟨"A", "alpha beta", 0⟩] initState)

/-- C6 trace: first lookup (request id 0, word "alpha"). -/
def c6S1 : AppState := handleDictionaryLookup c6S0

/-- C6 trace: click word 1 ("beta"). -/
def c6S2 : AppState := handleWordClick 1 c6S1

/-- C6 trace: second lookup (request id 1, word "beta") while the first is
still in flight. -/
def c6S3 : AppState := handleDictionaryLookup c6S2

/-- C6 trace: the newer request resolves first. -/
def c6S4 : AppState := resolveLookup 1 (.ok [["beta def"]]) c6S3

/-- C6 trace: the older request's late response arrives last. -/
def c6S5 : AppState := resolveLookup 0 (.ok [["alpha def"]]) c6S4

/-- Claim C6 counterexample: with two in-flight lookups (id 0 "alpha"
issued before id 1 "beta"), the newer word's definition is displayed once
request 1 resolves, but the older request's late response then overwrites
it: the final displayed definition is "alpha def" while the displayed word
is "beta" — refuting "the first lookup's late response never overwrites the
displayed definition result of the second, newer word". -/
theorem claim_C6_counterexample :
    c6S3.pendingLookups = [⟨0, "alpha"⟩, ⟨1, "beta"⟩]
    ∧ c6S3.selectedWord = some "beta"
    ∧ c6S4.dictionaryDefinition = "beta def"
    ∧ c6S5.selectedWord = some "beta"
    ∧ c6S5.dictionaryDefinition = "alpha def"
    ∧ c6S5.pendingLookups = []
    ∧ Reachable c6S5 :=
  ⟨by decide, by decide, by decide, by decide, by decide, by decide,
   Reachable.resolve 0 (.ok [["alpha def"]])
     (Reachable.resolve 1 (.ok [["beta def"]])
       (Reachable.lookup (Reachable.wordClick 1 (Reachable.lookup
         (Reachable.importEpub "book.epub" 0 [⟨"A", "alpha beta", 0⟩] Reachable.init))
         (by decide))))⟩

/-- Claim C6 as amended: the lookup handler keeps no recency information —
whenever any still-pending request resolves, its rendered response
unconditionally overwrites the displayed definition (the displayed word is
untouched).  Display therefore follows response-arrival order
(last-response-wins), not issuance order. -/
theorem claim_C6_amended (s : AppState) (i : Nat) (resp : DictResponse) (r : LookupReq)
    (hf : s.pendingLookups.find? (fun q => q.id == i) = some r) :
    (resolveLookup i resp s).dictionaryDefinition = renderResponse resp
    ∧ (resolveLookup i resp s).selectedWord = s.selectedWord := by
  rw [resolveLookup_live hf]
  exact ⟨rfl, rfl⟩

/-- Witness for C6's amended claim: the stale request 0 resolving in state
`c6S4` overwrites the displayed definition. -/
theorem claim_C6_witness :
    (resolveLookup 0 (.ok [["alpha def"]]) c6S4).dictionaryDefinition =
      renderResponse (.ok [["alpha def"]])
    ∧ (resolveLookup 0 (.ok [["alpha def"]]) c6S4).selectedWord = c6S4.selectedWord :=
  claim_C6_amended c6S4 0 (.ok [["alpha def"]]) ⟨0, "alpha"⟩ (by decide)

/-! ## Claim C1 -/

theorem splitWsGo_ne_nil : ∀ (cs cur : List Char) (b : Bool), splitWsGo cs cur b ≠ [] := by
  intro cs
  induction cs with
  | nil => intro cur b; simp [splitWsGo]
  | cons c rest ih =>
      intro cur b
      unfold splitWsGo
      rcases hw : isWs c
      · simp only [hw, Bool.false_eq_true, if_false]
        exact ih (c :: cur) false
      · rcases b
        · simp only [hw, if_true, Bool.false_eq_true, if_false]
          exact List.cons_ne_nil _ _
        · simp only [hw, if_true]
          exact ih cur true

theorem splitWs_ne_nil (s : String) : splitWs s ≠ [] := by
  unfold splitWs
  intro h
  rw [List.map_eq_nil_iff] at h
  exact splitWsGo_ne_nil s.data [] false h

theorem splitWs_length_pos (s : String) : 0 < (splitWs s).length :=
  List.length_pos.2 (splitWs_ne_nil s)

theorem length_pos_of_isEmpty_false {α : Type} {l : List α} (h : l.isEmpty = false) :
    0 < l.length := by
  cases l with
  | nil => cases h
  | cons a t => simp

/-- The cursor-bounds invariant of C1: whenever the active token sequence is
non-empty, the playback cursor indexes into it. -/
def cursorInv (s : AppState) : Prop :=
  s.chapterWords.isEmpty = false → s.currentWordIdx < s.chapterWords.length

theorem cursorInv_of_eq {s s' : AppState} (hc : s'.currentWordIdx = s.currentWordIdx)
    (hw : s'.chapterWords = s.chapterWords) (h : cursorInv s) : cursorInv s' := by
  unfold cursorInv at h ⊢
  rw [hc, hw]
  exact h

theorem handlePause_frame (s : AppState) :
    (handlePause s).currentWordIdx = s.currentWordIdx
    ∧ (handlePause s).chapterWords = s.chapterWords := by
  rcases hI : s.intervalId with _ | i
  · rw [handlePause_none hI]; exact ⟨rfl, rfl⟩
  · rw [handlePause_some hI]; exact ⟨rfl, rfl⟩

/-- C1 counterexample trace: a persisted word index 5 is resumed, then the
re-imported file's only chapter has just two tokens; the reconciler applies
the persisted index without any bounds check. -/
def c1Bad : AppState :=
  applyResume (parseEpubDone "book.epub" 0 [⟨"A", "a b", 0⟩]
    (handleResume 0 5 true "book.epub" initState))

/-- Claim C1 counterexample: a reachable state whose token sequence is
non-empty (two tokens) while the playback cursor sits at 5 — the resume
reconciliation step violates `0 ≤ currentWordIdx < length`, refuting the
invariant claimed for *every* reachable state and *every* operation
including resume reconciliation. -/
theorem claim_C1_counterexample :
    Reachable c1Bad
    ∧ c1Bad.chapterWords = ["a", "b"]
    ∧ c1Bad.currentWordIdx = 5
    ∧ ¬ c1Bad.currentWordIdx < c1Bad.chapterWords.length :=
  ⟨Reachable.importEpub "book.epub" 0 [⟨"A", "a b", 0⟩]
     (Reachable.resume 0 5 true "book.epub" Reachable.init),
   by decide, by decide, by decide⟩

/-- Claim C1 as amended: the cursor invariant `currentWordIdx < length`
(over non-empty token sequences) is preserved by every operation *except*
resume reconciliation: play, pause, reset, chapter selection, word click
(with its UI-guaranteed in-range index), interval ticks whose timer was
started on the current token sequence, TXT/PDF imports, EPUB imports with
no resume pending, dictionary lookups and resolutions, sidebar toggles, and
accepting a resume offer.  Resume reconciliation applies the persisted word
index without clamping, and can break the invariant (see the
counterexample). -/
theorem claim_C1_amended (s : AppState) (h : cursorInv s) :
    cursorInv (handlePlay s)
    ∧ cursorInv (handlePause s)
    ∧ cursorInv (handleReset s)
    ∧ (∀ i, cursorInv (handleSelectChapter i s))
    ∧ (∀ i, i < s.chapterWords.length → cursorInv (handleWordClick i s))
    ∧ (∀ t : Timer, t.len = s.chapterWords.length → cursorInv (intervalTick t s))
    ∧ (∀ fn text, cursorInv (parseTxtDone fn text s))
    ∧ (∀ fn pages, cursorInv (parsePdfDone fn pages s))
    ∧ (∀ fn dur arr, s.pendingResume = none →
        cursorInv (applyResume (parseEpubDone fn dur arr s)))
    ∧ cursorInv (handleDictionaryLookup s)
    ∧ (∀ i resp, cursorInv (resolveLookup i resp s))
    ∧ (∀ b, cursorInv (setShowChapters b s))
    ∧ (∀ c w sc fn, cursorInv (handleResume c w sc fn s)) := by
  refine ⟨?_, ?_, ?_, ?_, ?_, ?_, ?_, ?_, ?_, ?_, ?_, ?_, ?_⟩
  · rcases he : s.chapterWords.isEmpty
    · rcases hI : s.intervalId with _ | i
      · rw [handlePlay_fresh he hI]; exact h
      · rw [handlePlay_playing he hI]; exact h
    · rw [handlePlay_empty he]; exact h
  · have hf := handlePause_frame s
    exact cursorInv_of_eq hf.1 hf.2 h
  · unfold handleReset
    have h0 : cursorInv { s with currentWordIdx := 0 } := by
      intro hne
      exact length_pos_of_isEmpty_false hne
    have hf := handlePause_frame { s with currentWordIdx := 0 }
    exact cursorInv_of_eq hf.1 hf.2 h0
  · intro i
    rcases hc : s.chapters[i]? with _ | ch
    · rw [handleSelectChapter_out hc]; exact h
    · rcases hI : s.intervalId with _ | j
      · rw [handleSelectChapter_in_none hc hI]
        intro _
        exact splitWs_length_pos ch.text
      · rw [handleSelectChapter_in_some hc hI]
        intro _
        exact splitWs_length_pos ch.text
  · intro i hi
    rcases hI : s.intervalId with _ | j
    · rw [handleWordClick_none hI]; intro _; exact hi
    · rw [handleWordClick_some hI]; intro _; exact hi
  · intro t ht
    by_cases hadv : s.currentWordIdx < t.len - 1
    · rw [intervalTick_adv hadv]
      intro hne
      show s.currentWordIdx + 1 < s.chapterWords.length
      rw [ht] at hadv
      omega
    · rw [intervalTick_stop hadv]; exact h
  · intro fn text
    intro hne
    exact length_pos_of_isEmpty_false hne
  · intro fn pages
    intro hne
    exact length_pos_of_isEmpty_false hne
  · intro fn dur arr hp
    have hp' : (parseEpubDone fn dur arr s).pendingResume = none := by
      rcases arr with _ | ⟨ch, rest⟩
      · rw [parseEpubDone_nil]; exact hp
      · rw [parseEpubDone_cons]; exact hp
    rw [applyResume_none hp']
    rcases arr with _ | ⟨ch, rest⟩
    · rw [parseEpubDone_nil]
      intro hne
      cases hne
    · rw [parseEpubDone_cons]
      intro _
      exact splitWs_length_pos ch.text
  · by_cases hlt : s.currentWordIdx < s.chapterWords.length
    · rw [handleDictionaryLookup_in hlt]
      intro _
      exact hlt
    · rw [handleDictionaryLookup_out hlt]; exact h
  · intro i resp
    rcases hf : s.pendingLookups.find? (fun r => r.id == i) with _ | r
    · rw [resolveLookup_dead hf]; exact h
    · rw [resolveLookup_live hf]; exact h
  · intro b; exact h
  · intro c w sc fn; exact h

/-- Witness for C1's amended claim at the initial state (selected,
binder-free consequences instantiated at concrete arguments). -/
theorem claim_C1_witness :
    cursorInv (handlePlay initState)
    ∧ cursorInv (handleReset initState)
    ∧ cursorInv (handleSelectChapter 0 initState)
    ∧ cursorInv (parseTxtDone "notes.txt" "hello world" initState)
    ∧ cursorInv (applyResume (parseEpubDone "b.epub" 0 [⟨"A", "a b", 0⟩] initState)) := by
  obtain ⟨h1, _, h3, h4, _, _, h7, _, h9, _, _, _, _⟩ :=
    claim_C1_amended initState (by intro hne; exact absurd hne (by decide))
  exact ⟨h1, h3, h4 0, h7 "notes.txt" "hello world",
         h9 "b.epub" 0 [⟨"A", "a b", 0⟩] rfl⟩

/-! ## Claim C7 -/

/-- While a token is being collected (`cur ≠ []`), the first field the
splitter will produce is non-empty. -/
theorem splitWsGo_head_ne_nil : ∀ (cs cur : List Char) (b : Bool), cur ≠ [] →
    (splitWsGo cs cur b).head? ≠ some [] := by
  intro cs
  induction cs with
  | nil =>
      intro cur b hcur
      simp only [splitWsGo, List.head?_cons, ne_eq, Option.some.injEq,
        List.reverse_eq_nil_iff]
      exact hcur
  | cons c rest ih =>
      intro cur b hcur
      unfold splitWsGo
      rcases hw : isWs c
      · simp only [hw, Bool.false_eq_true, if_false]
        exact ih (c :: cur) false (List.cons_ne_nil _ _)
      · rcases b
        · simp only [hw, if_true, Bool.false_eq_true, if_false]
          simp only [List.head?_cons, ne_eq, Option.some.injEq, List.reverse_eq_nil_iff]
          exact hcur
        · simp only [hw, if_true]
          exact ih cur true hcur

/-- When the input starts with a non-whitespace character, the split's
first field is non-empty. -/
theorem splitWsGo_head_start (c : Char) (rest : List Char) (hw : isWs c = false) :
    (splitWsGo (c :: rest) [] false).head? ≠ some [] := by
  unfold splitWsGo
  rw [hw]
  simp only [Bool.false_eq_true, if_false]
  exact splitWsGo_head_ne_nil rest [c] false (List.cons_ne_nil _ _)

/-- Every field of the split other than the first and the last is
non-empty: an interior split point separates two maximal whitespace runs,
which must enclose at least one non-whitespace character.  `b = true` with
an empty accumulator describes the state just after a split point;
`b = false` with a non-empty accumulator a token in progress. -/
theorem splitWsGo_interior : ∀ (cs cur : List Char) (b : Bool),
    ((b = true ∧ cur = []) ∨ (b = false ∧ cur ≠ [])) →
    ∀ t ∈ (splitWsGo cs cur b).dropLast, t ≠ [] := by
  intro cs
  induction cs with
  | nil =>
      intro cur b _ t ht
      simp [splitWsGo] at ht
  | cons c rest ih =>
      intro cur b hstate t ht
      unfold splitWsGo at ht
      rcases hw : isWs c
      · rw [hw] at ht
        simp only [Bool.false_eq_true, if_false] at ht
        exact ih (c :: cur) false (Or.inr ⟨rfl, List.cons_ne_nil _ _⟩) t ht
      · rw [hw] at ht
        simp only [if_true] at ht
        rcases hstate with ⟨hb, hcur⟩ | ⟨hb, hcur⟩
        · rw [hb] at ht
          simp only [if_true] at ht
          exact ih cur true (Or.inl ⟨rfl, hcur⟩) t ht
        · rw [hb] at ht
          simp only [Bool.false_eq_true, if_false] at ht
          rcases hL : splitWsGo rest [] true with _ | ⟨y, L⟩
          · exact absurd hL (splitWsGo_ne_nil rest [] true)
          · rw [hL, List.dropLast_cons₂] at ht
            rcases List.mem_cons.mp ht with h1 | h2
            · rw [h1]
              simp only [ne_eq, List.reverse_eq_nil_iff]
              exact hcur
            · exact ih [] true (Or.inl ⟨rfl, rfl⟩) t (by rw [hL]; exact h2)

/-- Interior fields of a split from the initial state are non-empty. -/
theorem splitWsGo_interior_start (cs : List Char) :
    ∀ t ∈ ((splitWsGo cs [] false).dropLast).tail, t ≠ [] := by
  rcases cs with _ | ⟨c, rest⟩
  · intro t ht
    simp [splitWsGo] at ht
  · rcases hw : isWs c
    · intro t ht
      unfold splitWsGo at ht
      rw [hw] at ht
      simp only [Bool.false_eq_true, if_false] at ht
      exact splitWsGo_interior rest [c] false (Or.inr ⟨rfl, List.cons_ne_nil _ _⟩) t
        (List.mem_of_mem_tail ht)
    · intro t ht
      unfold splitWsGo at ht
      rw [hw] at ht
      simp only [if_true, Bool.false_eq_true, if_false] at ht
      rcases hL : splitWsGo rest [] true with _ | ⟨y, L⟩
      · exact absurd hL (splitWsGo_ne_nil rest [] true)
      · rw [hL, List.dropLast_cons₂, List.tail_cons] at ht
        exact splitWsGo_interior rest [] true (Or.inl ⟨rfl, rfl⟩) t (by rw [hL]; exact ht)

/-- C7 counterexample input: `" a "` begins and ends with whitespace. -/
def c7Input : String := " a "

/-- Claim C7 counterexample: JS `split(/\s+/)` yields an empty *first* field
when the input begins with whitespace and an empty *last* field when it
ends with whitespace: `" a "` tokenizes to `["", "a", ""]`, refuting "the
resulting sequence contains no empty tokens at its start or end, even when
the input begins or ends with whitespace". -/
theorem claim_C7_counterexample :
    splitWs c7Input = ["", "a", ""]
    ∧ (splitWs c7Input).head? = some ""
    ∧ (splitWs c7Input).getLast? = some "" := by
  refine ⟨by decide, by decide, by decide⟩

/-- Claim C7 as amended: tokenization splits on runs of one or more
whitespace characters, and empty tokens can arise only at the boundary:
every interior token is non-empty, and when the input starts with a
non-whitespace character the first token is non-empty as well (an input
starting — or symmetrically ending — with whitespace does produce an empty
boundary token).  The scenario holds: tokenizing
`"Hello world.\n\nNext. See"` yields exactly
`["Hello", "world.", "Next.", "See"]`. -/
theorem claim_C7_amended :
    splitWs "Hello world.\n\nNext. See" = ["Hello", "world.", "Next.", "See"]
    ∧ (∀ (s : String), ∀ t ∈ ((splitWs s).dropLast).tail, t ≠ "")
    ∧ (∀ (s : String) (c : Char), s.data.head? = some c → isWs c = false →
        ∀ t, (splitWs s).head? = some t → t ≠ "") := by
  refine ⟨by decide, ?_, ?_⟩
  · intro s t ht
    unfold splitWs at ht
    rw [← List.map_dropLast, ← List.map_tail] at ht
    rcases List.mem_map.mp ht with ⟨tok, hmem, hEq⟩
    have hne : tok ≠ [] := splitWsGo_interior_start s.data tok hmem
    rw [← hEq]
    intro hS
    apply hne
    simpa using congrArg String.data hS
  · intro s c hc hw t ht
    rcases hd : s.data with _ | ⟨c0, rest⟩
    · rw [hd] at hc
      cases hc
    · have hc0 : c0 = c := by
        rw [hd] at hc
        simpa using hc
      unfold splitWs at ht
      rw [hd, List.head?_map] at ht
      rcases hh : (splitWsGo (c0 :: rest) [] false).head? with _ | tok
      · rw [hh] at ht
        cases ht
      · rw [hh] at ht
        have hne : tok ≠ [] := by
          intro h0
          apply splitWsGo_head_start c0 rest (hc0 ▸ hw)
          rw [hh, h0]
        have hmk : String.mk tok = t := by simpa using ht
        rw [← hmk]
        intro hS
        apply hne
        simpa using congrArg String.data hS

/-- Witness for C7's amended claim: the scenario equality, an interior
token of the scenario split, and the head token of `"ab cd"`. -/
theorem claim_C7_witness :
    splitWs "Hello world.\n\nNext. See" = ["Hello", "world.", "Next.", "See"]
    ∧ ("world." : String) ≠ ""
    ∧ ("ab" : String) ≠ "" := by
  obtain ⟨h1, h2, h3⟩ := claim_C7_amended
  refine ⟨h1, ?_, ?_⟩
  · exact h2 "Hello world.\n\nNext. See" "world." (by rw [h1]; decide)
  · exact h3 "ab cd" 'a' (by decide) (by decide) "ab" (by decide)

/-! ## Claim C9

Normalization is settled through four Boolean shape predicates on character
lists: `noNl3Go` (no newline run of length 3 or more), `spOkGo` (every
horizontal-whitespace character is a single space not preceded by one),
`apOk` (no sentence-ending punctuation character directly followed by
another), and `pmOk` (no match left for the punctuation-spacing
replacement).  Each pipeline stage is shown to establish or preserve the
predicates that make the later stages act as the identity. -/

/-- No maximal newline run of the input, continued from a run of `k`
pending newlines, reaches length 3. -/
def noNl3Go : List Char → Nat → Bool
  | [], _ => true
  | c :: rest, k =>
    if c = '\n' then decide (k < 2) && noNl3Go rest (k + 1)
    else noNl3Go rest 0

/-- No newline run of length 3 or more. -/
def noNl3 (cs : List Char) : Bool := noNl3Go cs 0

theorem isPunct_ne_nl {c : Char} (h : isPunct c = true) : ¬ c = '\n' := by
  simp only [isPunct, Bool.or_eq_true, decide_eq_true_eq] at h
  rcases h with (h | h) | h <;> subst h <;> decide

theorem isExcl_ne_nl {c : Char} (h : isExcl c = true) : ¬ c = '\n' := by
  simp only [isExcl, Bool.not_eq_eq_eq_not, Bool.not_true, Bool.or_eq_false_iff,
    decide_eq_false_iff_not] at h
  exact h.2

theorem isExcl_ne_sp {c : Char} (h : isExcl c = true) : ¬ c = ' ' := by
  simp only [isExcl, Bool.not_eq_eq_eq_not, Bool.not_true, Bool.or_eq_false_iff,
    decide_eq_false_iff_not] at h
  exact h.1

/-- A smaller pending-run count is a weaker constraint. -/
theorem noNl3Go_mono : ∀ (cs : List Char) (k j : Nat), j ≤ k →
    noNl3Go cs k = true → noNl3Go cs j = true := by
  intro cs
  induction cs with
  | nil => intro k j _ _; rfl
  | cons c rest ih =>
      intro k j hle h
      unfold noNl3Go at h ⊢
      by_cases hc : c = '\n'
      · simp only [hc, if_true, Bool.and_eq_true, decide_eq_true_eq] at h ⊢
        exact ⟨Nat.lt_of_le_of_lt hle h.1, ih (k + 1) (j + 1) (Nat.succ_le_succ hle) h.2⟩
      · simp only [hc, if_false] at h ⊢
        exact h

/-- The newline-collapsing pass produces no run of 3 or more newlines. -/
theorem noNl3_collapseNlGo : ∀ (cs : List Char) (k : Nat),
    noNl3Go (collapseNlGo cs k) 0 = true := by
  intro cs
  induction cs with
  | nil =>
      intro k
      unfold collapseNlGo emitRun
      by_cases hk : 3 ≤ k
      · simp only [hk, if_true]
        decide
      · rcases k with _ | _ | _ | n
        · decide
        · decide
        · decide
        · omega
  | cons c rest ih =>
      intro k
      unfold collapseNlGo
      by_cases hc : c = '\n'
      · simp only [hc, if_true]
        exact ih (k + 1)
      · simp only [hc, if_false]
        have hrest := ih 0
        unfold emitRun
        by_cases hk : 3 ≤ k
        · simp only [hk, if_true]
          simp only [List.cons_append, List.nil_append, noNl3Go, hc, if_false]
          norm_num
          exact hrest
        · rcases k with _ | _ | _ | n
          · simpa [noNl3Go, hc] using hrest
          · simpa [noNl3Go, hc] using hrest
          · simpa [noNl3Go, hc] using hrest
          · omega

/-- On an input with no 3-newline run (given `k` already-consumed pending
newlines, `k ≤ 2`), the newline-collapsing pass is the identity. -/
theorem collapseNlGo_id : ∀ (cs : List Char) (k : Nat), k ≤ 2 →
    noNl3Go cs k = true → collapseNlGo cs k = List.replicate k '\n' ++ cs := by
  intro cs
  induction cs with
  | nil =>
      intro k hk _
      unfold collapseNlGo emitRun
      have h3 : ¬ 3 ≤ k := by omega
      simp [h3]
  | cons c rest ih =>
      intro k hk h
      unfold collapseNlGo
      by_cases hc : c = '\n'
      · simp only [hc, if_true]
        unfold noNl3Go at h
        simp only [hc, if_true, Bool.and_eq_true, decide_eq_true_eq] at h
        rw [ih (k + 1) (by omega) h.2]
        rw [List.replicate_succ' k '\n']
        simp [hc]
      · simp only [hc, if_false]
        unfold noNl3Go at h
        simp only [hc, if_false] at h
        rw [ih 0 (by omega) h]
        unfold emitRun
        have h3 : ¬ 3 ≤ k := by omega
        simp [h3]

/-- The pass `collapseNl` is the identity on newline-collapsed text. -/
theorem collapseNl_id {cs : List Char} (h : noNl3 cs = true) : collapseNl cs = cs := by
  have := collapseNlGo_id cs 0 (by omega) h
  simpa [collapseNl] using this

/-- The predicate `noNl3Go` only constrains a prefix of the text. -/
theorem noNl3Go_append : ∀ (X Y : List Char) (k : Nat),
    noNl3Go (X ++ Y) k = true → noNl3Go X k = true := by
  intro X
  induction X with
  | nil => intro Y k _; rfl
  | cons c X' ih =>
      intro Y k h
      rw [List.cons_append] at h
      unfold noNl3Go at h ⊢
      by_cases hc : c = '\n'
      · simp only [hc, if_true, Bool.and_eq_true] at h ⊢
        exact ⟨h.1, ih Y (k + 1) h.2⟩
      · simp only [hc, if_false] at h ⊢
        exact ih Y 0 h

/-- Dropping a whitespace prefix preserves the newline-run bound. -/
theorem noNl3_dropWhile : ∀ (cs : List Char) (k : Nat), noNl3Go cs k = true →
    noNl3 (cs.dropWhile isWs) = true := by
  intro cs
  induction cs with
  | nil => intro k _; rfl
  | cons c rest ih =>
      intro k h
      unfold noNl3Go at h
      by_cases hw : isWs c
      · rw [List.dropWhile_cons_of_pos (by simpa using hw)]
        by_cases hc : c = '\n'
        · simp only [hc, if_true, Bool.and_eq_true] at h
          exact ih (k + 1) h.2
        · simp only [hc, if_false] at h
          exact ih 0 h
      · rw [List.dropWhile_cons_of_neg (by simpa using hw)]
        have hc : ¬ c = '\n' := fun hEq => hw (by rw [hEq]; rfl)
        simp only [hc, if_false] at h
        unfold noNl3 noNl3Go
        simp only [hc, if_false]
        exact h

/-- Every horizontal-whitespace character of the text is a single `' '`
(never a tab) that does not directly follow another horizontal-whitespace
character; `prev` records whether the previous character was horizontal
whitespace. -/
def spOkGo : List Char → Bool → Bool
  | [], _ => true
  | c :: rest, prev =>
    if isHws c then (c == ' ') && !prev && spOkGo rest true
    else spOkGo rest false

/-- Horizontal whitespace is space-collapsed. -/
def spOk (cs : List Char) : Bool := spOkGo cs false

theorem isHws_ne_nl {c : Char} (h : isHws c = true) : ¬ c = '\n' := by
  simp only [isHws, Bool.or_eq_true, decide_eq_true_eq] at h
  rcases h with h | h <;> subst h <;> decide

theorem isHws_isWs {c : Char} (h : isHws c = true) : isWs c = true := by
  simp only [isHws, Bool.or_eq_true, decide_eq_true_eq] at h
  rcases h with h | h <;> subst h <;> decide

theorem isPunct_not_hws {c : Char} (h : isPunct c = true) : isHws c = false := by
  simp only [isPunct, Bool.or_eq_true, decide_eq_true_eq] at h
  rcases h with (h | h) | h <;> subst h <;> decide

/-- Rewriting equations for the shape predicates. -/
theorem noNl3Go_nl (rest : List Char) (k : Nat) :
    noNl3Go ('\n' :: rest) k = (decide (k < 2) && noNl3Go rest (k + 1)) := by
  simp [noNl3Go]

theorem noNl3Go_other {c : Char} (hc : ¬ c = '\n') (rest : List Char) (k : Nat) :
    noNl3Go (c :: rest) k = noNl3Go rest 0 := by
  simp [noNl3Go, hc]

theorem spOkGo_hws {c : Char} (hh : isHws c = true) (rest : List Char) (b : Bool) :
    spOkGo (c :: rest) b = ((c == ' ') && !b && spOkGo rest true) := by
  simp [spOkGo, hh]

theorem spOkGo_other {c : Char} (hh : isHws c = false) (rest : List Char) (b : Bool) :
    spOkGo (c :: rest) b = spOkGo rest false := by
  simp [spOkGo, hh]

theorem collapseSpGo_hws {c : Char} (hh : isHws c = true) (rest : List Char) (pend : Bool) :
    collapseSpGo (c :: rest) pend = collapseSpGo rest true := by
  simp [collapseSpGo, hh]

theorem collapseSpGo_other {c : Char} (hh : isHws c = false) (rest : List Char) (pend : Bool) :
    collapseSpGo (c :: rest) pend =
      (if pend then [' '] else []) ++ c :: collapseSpGo rest false := by
  simp [collapseSpGo, hh]

/-- The space-collapsing pass produces space-collapsed text. -/
theorem spOk_collapseSpGo : ∀ (cs : List Char) (pend : Bool),
    spOkGo (collapseSpGo cs pend) false = true := by
  intro cs
  induction cs with
  | nil =>
      intro pend
      rcases pend <;> decide
  | cons c rest ih =>
      intro pend
      rcases hh : isHws c
      · rw [collapseSpGo_other hh]
        rcases pend
        · simp only [Bool.false_eq_true, if_false, List.nil_append]
          rw [spOkGo_other hh]
          exact ih false
        · simp only [if_true, List.cons_append, List.nil_append]
          rw [spOkGo_hws (by decide), spOkGo_other hh]
          simpa using ih false
      · rw [collapseSpGo_hws hh]
        exact ih true

/-- On space-collapsed text (with `b` recording a pending owed space), the
space-collapsing pass is the identity. -/
theorem collapseSpGo_id : ∀ (cs : List Char) (b : Bool), spOkGo cs b = true →
    collapseSpGo cs b = (if b then [' '] else []) ++ cs := by
  intro cs
  induction cs with
  | nil =>
      intro b _
      rcases b <;> simp [collapseSpGo]
  | cons c rest ih =>
      intro b h
      rcases hh : isHws c
      · rw [spOkGo_other hh] at h
        rw [collapseSpGo_other hh, ih false h]
        simp
      · rw [spOkGo_hws hh] at h
        rcases b
        · simp only [Bool.not_false, Bool.and_true, Bool.and_eq_true, beq_iff_eq] at h
          rw [collapseSpGo_hws hh, ih true h.2]
          simp [h.1]
        · simp at h


/-- The pass `collapseSp` is the identity on space-collapsed text. -/
theorem collapseSp_id {cs : List Char} (h : spOk cs = true) : collapseSp cs = cs := by
  have := collapseSpGo_id cs false h
  simpa [collapseSp] using this

/-- The space-collapsing pass never merges newline runs: the newline-run
bound survives it (with any pending count once a space is owed, since the
owed space breaks the run). -/
theorem noNl3_collapseSpGo : ∀ (cs : List Char) (k : Nat), noNl3Go cs k = true →
    noNl3Go (collapseSpGo cs false) k = true
    ∧ ∀ j, noNl3Go (collapseSpGo cs true) j = true := by
  intro cs
  induction cs with
  | nil =>
      intro k _
      exact ⟨rfl, fun j => by simp [collapseSpGo, noNl3Go]⟩
  | cons c rest ih =>
      intro k h
      rcases hh : isHws c
      · by_cases hc : c = '\n'
        · rw [hc] at h
          rw [noNl3Go_nl] at h
          simp only [Bool.and_eq_true, decide_eq_true_eq] at h
          rw [hc, collapseSpGo_other (by decide), collapseSpGo_other (by decide)]
          constructor
          · simp only [Bool.false_eq_true, if_false, List.nil_append]
            rw [noNl3Go_nl]
            simp only [Bool.and_eq_true, decide_eq_true_eq]
            exact ⟨h.1, (ih (k + 1) h.2).1⟩
          · intro j
            simp only [if_true, List.cons_append, List.nil_append]
            rw [noNl3Go_other (by decide), noNl3Go_nl]
            simp only [Bool.and_eq_true, decide_eq_true_eq]
            refine ⟨by omega, ?_⟩
            have h1 : noNl3Go rest 1 = true :=
              noNl3Go_mono rest (k + 1) 1 (by omega) h.2
            exact (ih 1 h1).1
        · rw [noNl3Go_other hc] at h
          rw [collapseSpGo_other hh, collapseSpGo_other hh]
          constructor
          · simp only [Bool.false_eq_true, if_false, List.nil_append]
            rw [noNl3Go_other hc]
            exact (ih 0 h).1
          · intro j
            simp only [if_true, List.cons_append, List.nil_append]
            rw [noNl3Go_other (by decide), noNl3Go_other hc]
            exact (ih 0 h).1
      · have hc : ¬ c = '\n' := isHws_ne_nl hh
        rw [noNl3Go_other hc] at h
        rw [collapseSpGo_hws hh, collapseSpGo_hws hh]
        exact ⟨(ih 0 h).2 k, fun j => (ih 0 h).2 j⟩

theorem spOkGo_append : ∀ (X Y : List Char) (b : Bool),
    spOkGo (X ++ Y) b = true → spOkGo X b = true := by
  intro X
  induction X with
  | nil => intro Y b _; rfl
  | cons c X' ih =>
      intro Y b h
      rw [List.cons_append] at h
      unfold spOkGo at h ⊢
      by_cases hh : isHws c
      · simp only [hh, if_true, Bool.and_eq_true] at h ⊢
        exact ⟨h.1, ih Y true h.2⟩
      · simp only [hh, if_false] at h ⊢
        exact ih Y false h

theorem spOk_dropWhile : ∀ (cs : List Char) (b : Bool), spOkGo cs b = true →
    spOk (cs.dropWhile isWs) = true := by
  intro cs
  induction cs with
  | nil => intro b _; rfl
  | cons c rest ih =>
      intro b h
      unfold spOkGo at h
      by_cases hw : isWs c
      · rw [List.dropWhile_cons_of_pos hw]
        by_cases hh : isHws c
        · simp only [hh, if_true, Bool.and_eq_true] at h
          exact ih true h.2
        · simp only [hh, if_false] at h
          exact ih false h
      · rw [List.dropWhile_cons_of_neg (by simpa using hw)]
        have hh : isHws c = false := by
          by_contra hx
          exact hw (isHws_isWs (by revert hx; cases isHws c <;> simp))
        simp only [hh, Bool.false_eq_true, if_false] at h
        unfold spOk spOkGo
        simp only [hh, Bool.false_eq_true, if_false]
        exact h

/-- No sentence-ending punctuation character directly followed by
another. -/
def apOk : List Char → Bool
  | [] => true
  | [_] => true
  | c :: d :: rest => !(isPunct c && isPunct d) && apOk (d :: rest)

/-- No remaining match for the punctuation-spacing replacement: no
sentence-ending punctuation character directly followed by a character
other than space and newline. -/
def pmOk : List Char → Bool
  | [] => true
  | [_] => true
  | c :: d :: rest => !(isPunct c && isExcl d) && pmOk (d :: rest)

theorem apOk_tail {c : Char} {X : List Char} (h : apOk (c :: X) = true) : apOk X = true := by
  cases X with
  | nil => rfl
  | cons d X' =>
      simp only [apOk, Bool.and_eq_true] at h
      exact h.2

theorem pmOk_tail {c : Char} {X : List Char} (h : pmOk (c :: X) = true) : pmOk X = true := by
  cases X with
  | nil => rfl
  | cons d X' =>
      simp only [pmOk, Bool.and_eq_true] at h
      exact h.2

theorem apOk_pair {c d : Char} {X : List Char} (h : apOk (c :: d :: X) = true) :
    (isPunct c && isPunct d) = false := by
  simp only [apOk, Bool.and_eq_true, Bool.not_eq_true'] at h
  exact h.1

theorem pmOk_pair {c d : Char} {X : List Char} (h : pmOk (c :: d :: X) = true) :
    (isPunct c && isExcl d) = false := by
  simp only [pmOk, Bool.and_eq_true, Bool.not_eq_true'] at h
  exact h.1

theorem apOk_cons_of_not_punct {c : Char} {X : List Char} (hc : isPunct c = false)
    (hX : apOk X = true) : apOk (c :: X) = true := by
  cases X with
  | nil => rfl
  | cons d X' =>
      simp only [apOk, Bool.and_eq_true, Bool.not_eq_true']
      exact ⟨by simp [hc], hX⟩

theorem pmOk_cons_of_not_punct {c : Char} {X : List Char} (hc : isPunct c = false)
    (hX : pmOk X = true) : pmOk (c :: X) = true := by
  cases X with
  | nil => rfl
  | cons d X' =>
      simp only [pmOk, Bool.and_eq_true, Bool.not_eq_true']
      exact ⟨by simp [hc], hX⟩

theorem apOk_cons_head {c : Char} {X : List Char} (hX : apOk X = true)
    (hhead : ∀ y, X.head? = some y → (isPunct c && isPunct y) = false) :
    apOk (c :: X) = true := by
  cases X with
  | nil => rfl
  | cons d X' =>
      simp only [apOk, Bool.and_eq_true, Bool.not_eq_true']
      exact ⟨hhead d rfl, hX⟩

theorem apOk_replicate_nl : ∀ (n : Nat) (X : List Char), apOk X = true →
    apOk (List.replicate n '\n' ++ X) = true := by
  intro n
  induction n with
  | zero => intro X h; simpa using h
  | succ m ih =>
      intro X h
      rw [List.replicate_succ, List.cons_append]
      exact apOk_cons_of_not_punct (by decide) (ih X h)

theorem emitRun_eq_replicate (k : Nat) :
    emitRun k = List.replicate (if 3 ≤ k then 2 else k) '\n' := by
  unfold emitRun
  split <;> simp

/-- With a positive pending newline count, the collapsed output starts with
a newline. -/
theorem collapseNlGo_head_pos : ∀ (cs : List Char) (k : Nat), 1 ≤ k →
    (collapseNlGo cs k).head? = some '\n' := by
  intro cs
  induction cs with
  | nil =>
      intro k hk
      unfold collapseNlGo
      rw [emitRun_eq_replicate]
      by_cases h3 : 3 ≤ k
      · simp [h3]
      · rcases k with _ | m
        · omega
        · simp [h3, List.replicate_succ]
  | cons c rest ih =>
      intro k hk
      unfold collapseNlGo
      by_cases hc : c = '\n'
      · simp only [hc, if_true]
        exact ih (k + 1) (by omega)
      · simp only [hc, if_false]
        rw [emitRun_eq_replicate]
        by_cases h3 : 3 ≤ k
        · simp [h3]
        · rcases k with _ | m
          · omega
          · simp [h3, List.replicate_succ]

/-- With no pending newlines, collapsing preserves the head character. -/
theorem collapseNlGo_head_zero : ∀ (cs : List Char),
    (collapseNlGo cs 0).head? = cs.head? := by
  intro cs
  cases cs with
  | nil => simp [collapseNlGo, emitRun]
  | cons c rest =>
      unfold collapseNlGo
      by_cases hc : c = '\n'
      · simp only [hc, if_true]
        rw [collapseNlGo_head_pos rest 1 (by omega)]
        simp
      · simp only [hc, if_false]
        simp [emitRun]

/-- The newline-collapsing pass never creates a punctuation adjacency. -/
theorem apOk_collapseNlGo : ∀ (cs : List Char) (k : Nat), apOk cs = true →
    apOk (collapseNlGo cs k) = true := by
  intro cs
  induction cs with
  | nil =>
      intro k _
      unfold collapseNlGo
      rw [emitRun_eq_replicate]
      have := apOk_replicate_nl (if 3 ≤ k then 2 else k) [] rfl
      simpa using this
  | cons c rest ih =>
      intro k h
      unfold collapseNlGo
      by_cases hc : c = '\n'
      · simp only [hc, if_true]
        exact ih (k + 1) (apOk_tail h)
      · simp only [hc, if_false]
        rw [emitRun_eq_replicate]
        apply apOk_replicate_nl
        apply apOk_cons_head (ih 0 (apOk_tail h))
        intro y hy
        rw [collapseNlGo_head_zero rest] at hy
        cases rest with
        | nil => cases hy
        | cons r rs =>
            have hyr : y = r := by simpa using hy.symm
            subst hyr
            exact apOk_pair h

/-- The space-collapsing output with an owed space starts with a space. -/
theorem collapseSpGo_head_true : ∀ (cs : List Char),
    (collapseSpGo cs true).head? = some ' ' := by
  intro cs
  induction cs with
  | nil => rfl
  | cons c rest ih =>
      rcases hh : isHws c
      · rw [collapseSpGo_other hh]
        simp
      · rw [collapseSpGo_hws hh]
        exact ih

/-- The space-collapsing output with no owed space keeps the head
character, up to mapping horizontal whitespace to a space. -/
theorem collapseSpGo_head_false : ∀ (cs : List Char),
    (collapseSpGo cs false).head? =
      cs.head?.map (fun c => if isHws c then ' ' else c) := by
  intro cs
  cases cs with
  | nil => rfl
  | cons c rest =>
      rcases hh : isHws c
      · rw [collapseSpGo_other hh]
        simp [hh]
      · rw [collapseSpGo_hws hh]
        rw [collapseSpGo_head_true rest]
        simp [hh]

/-- The space-collapsing pass never creates a punctuation adjacency. -/
theorem apOk_collapseSpGo : ∀ (cs : List Char) (b : Bool), apOk cs = true →
    apOk (collapseSpGo cs b) = true := by
  intro cs
  induction cs with
  | nil =>
      intro b _
      rcases b <;> rfl
  | cons c rest ih =>
      intro b h
      rcases hh : isHws c
      · rw [collapseSpGo_other hh]
        have hcore : apOk (c :: collapseSpGo rest false) = true := by
          apply apOk_cons_head (ih false (apOk_tail h))
          intro y hy
          rw [collapseSpGo_head_false rest] at hy
          cases rest with
          | nil => cases hy
          | cons r rs =>
              simp only [List.head?_cons, Option.map_some'] at hy
              rcases hr : isHws r
              · rw [hr] at hy
                simp only [Bool.false_eq_true, if_false] at hy
                have hyr : y = r := by simpa using hy.symm
                subst hyr
                exact apOk_pair h
              · rw [hr] at hy
                simp only [if_true] at hy
                have : y = ' ' := by simpa using hy.symm
                subst this
                simp [isPunct]
        rcases b
        · simpa using hcore
        · simp only [if_true, List.cons_append, List.nil_append]
          exact apOk_cons_of_not_punct (by decide) hcore
      · rw [collapseSpGo_hws hh]
        exact ih true (apOk_tail h)

theorem fixPunct_match {c d : Char} {rest : List Char}
    (hm : (isPunct c && isExcl d) = true) :
    fixPunct (c :: d :: rest) = c :: ' ' :: d :: fixPunct rest := by
  simp [fixPunct, hm]

theorem fixPunct_skip {c d : Char} {rest : List Char}
    (hm : (isPunct c && isExcl d) = false) :
    fixPunct (c :: d :: rest) = c :: fixPunct (d :: rest) := by
  simp [fixPunct, hm]

/-- The punctuation-spacing pass preserves the head character. -/
theorem fixPunct_head : ∀ (cs : List Char), (fixPunct cs).head? = cs.head?
  | [] => rfl
  | [c] => rfl
  | c :: d :: rest => by
      rcases hm : (isPunct c && isExcl d)
      · rw [fixPunct_skip hm]
        rfl
      · rw [fixPunct_match hm]
        rfl

/-- On text with no adjacent sentence-ending punctuation pair, the
punctuation-spacing pass leaves no match behind: each inserted space
separates the pair, the consumed second character cannot itself start a
match, and skipped pairs were already matchless. -/
theorem pmOk_fixPunct : ∀ (cs : List Char), apOk cs = true → pmOk (fixPunct cs) = true
  | [], _ => rfl
  | [c], _ => rfl
  | c :: d :: rest, h => by
      rcases hm : (isPunct c && isExcl d)
      · rw [fixPunct_skip hm]
        have hrec := pmOk_fixPunct (d :: rest) (apOk_tail h)
        have hhd : (fixPunct (d :: rest)).head? = some d := by
          rw [fixPunct_head]
          rfl
        rcases hY : fixPunct (d :: rest) with _ | ⟨y, Y'⟩
        · rw [hY] at hhd
          cases hhd
        · rw [hY] at hhd hrec
          have hyd : y = d := by simpa using hhd
          subst hyd
          simp only [pmOk, Bool.and_eq_true, Bool.not_eq_true']
          exact ⟨hm, hrec⟩
      · rw [fixPunct_match hm]
        have hm2 : isPunct c = true ∧ isExcl d = true := by simpa using hm
        have hdp : isPunct d = false := by
          have hp := apOk_pair h
          rw [hm2.1] at hp
          simpa using hp
        have hrest : pmOk (fixPunct rest) = true :=
          pmOk_fixPunct rest (apOk_tail (apOk_tail h))
        have h3 : pmOk (d :: fixPunct rest) = true :=
          pmOk_cons_of_not_punct hdp hrest
        simp only [pmOk, Bool.and_eq_true, Bool.not_eq_true']
        exact ⟨by simp [isExcl], by simp [isPunct], by
          simpa [pmOk, Bool.and_eq_true, Bool.not_eq_true'] using h3⟩

/-- On matchless text, the punctuation-spacing pass is the identity. -/
theorem fixPunct_id : ∀ (cs : List Char), pmOk cs = true → fixPunct cs = cs
  | [], _ => rfl
  | [c], _ => rfl
  | c :: d :: rest, h => by
      rw [fixPunct_skip (pmOk_pair h)]
      rw [fixPunct_id (d :: rest) (pmOk_tail h)]

/-- The punctuation-spacing pass (which only inserts spaces between
non-newline characters) preserves the newline-run bound. -/
theorem noNl3_fixPunct : ∀ (cs : List Char) (k : Nat), noNl3Go cs k = true →
    noNl3Go (fixPunct cs) k = true
  | [], _, h => h
  | [_], _, h => h
  | c :: d :: rest, k, h => by
      rcases hm : (isPunct c && isExcl d)
      · rw [fixPunct_skip hm]
        by_cases hc : c = '\n'
        · subst hc
          rw [noNl3Go_nl] at h ⊢
          simp only [Bool.and_eq_true, decide_eq_true_eq] at h ⊢
          exact ⟨h.1, noNl3_fixPunct (d :: rest) (k + 1) h.2⟩
        · rw [noNl3Go_other hc] at h ⊢
          exact noNl3_fixPunct (d :: rest) 0 h
      · rw [fixPunct_match hm]
        have hm2 : isPunct c = true ∧ isExcl d = true := by simpa using hm
        have hc : ¬ c = '\n' := isPunct_ne_nl hm2.1
        have hd : ¬ d = '\n' := isExcl_ne_nl hm2.2
        rw [noNl3Go_other hc, noNl3Go_other hd] at h
        rw [noNl3Go_other hc, noNl3Go_other (by decide : ¬ (' ' : Char) = '\n'),
          noNl3Go_other hd]
        exact noNl3_fixPunct rest 0 h

/-- The punctuation-spacing pass preserves space-collapsedness: a space is
only ever inserted between a punctuation character and a character that is
neither a space nor (on space-collapsed input) a tab. -/
theorem spOk_fixPunct : ∀ (cs : List Char) (b : Bool), spOkGo cs b = true →
    spOkGo (fixPunct cs) b = true
  | [], _, h => h
  | [_], _, h => h
  | c :: d :: rest, b, h => by
      rcases hm : (isPunct c && isExcl d)
      · rw [fixPunct_skip hm]
        rcases hh : isHws c
        · rw [spOkGo_other hh] at h ⊢
          exact spOk_fixPunct (d :: rest) false h
        · rw [spOkGo_hws hh] at h ⊢
          simp only [Bool.and_eq_true] at h ⊢
          exact ⟨h.1, spOk_fixPunct (d :: rest) true h.2⟩
      · rw [fixPunct_match hm]
        have hm2 : isPunct c = true ∧ isExcl d = true := by simpa using hm
        have hcp : isPunct c = true := hm2.1
        have hde : isExcl d = true := hm2.2
        have hch : isHws c = false := isPunct_not_hws hcp
        have hdh : isHws d = false := by
          rcases hdh : isHws d
          · rfl
          · exfalso
            rw [spOkGo_other hch, spOkGo_hws hdh] at h
            have hds : ¬ d = ' ' := isExcl_ne_sp hde
            simp [hds] at h
        rw [spOkGo_other hch, spOkGo_other hdh] at h
        rw [spOkGo_other hch, spOkGo_hws (by decide : isHws ' ' = true),
          spOkGo_other hdh]
        simpa using spOk_fixPunct rest false h

theorem pmOk_append : ∀ (X Y : List Char), pmOk (X ++ Y) = true → pmOk X = true
  | [], _, _ => rfl
  | [_], _, _ => rfl
  | c :: d :: X', Y, h => by
      rw [List.cons_append, List.cons_append] at h
      simp only [pmOk, Bool.and_eq_true] at h ⊢
      refine ⟨h.1, ?_⟩
      exact pmOk_append (d :: X') Y (by rw [List.cons_append]; exact h.2)

theorem pmOk_dropWhile : ∀ (cs : List Char), pmOk cs = true →
    pmOk (cs.dropWhile isWs) = true := by
  intro cs
  induction cs with
  | nil => intro h; exact h
  | cons c rest ih =>
      intro h
      by_cases hw : isWs c = true
      · rw [List.dropWhile_cons_of_pos hw]
        exact ih (pmOk_tail h)
      · rw [List.dropWhile_cons_of_neg hw]
        exact h

/-- A predicate that survives dropping a left part and a whitespace prefix
survives trimming. -/
theorem trimWs_pres {P : List Char → Bool}
    (hApp : ∀ X Y, P (X ++ Y) = true → P X = true)
    (hDrop : ∀ X, P X = true → P (X.dropWhile isWs) = true)
    {cs : List Char} (h : P cs = true) : P (trimWs cs) = true := by
  unfold trimWs dropTrailWs
  have h1 := hDrop cs h
  obtain ⟨T, hT⟩ := List.dropWhile_suffix (l := (cs.dropWhile isWs).reverse) isWs
  have hXeq : cs.dropWhile isWs =
      ((cs.dropWhile isWs).reverse.dropWhile isWs).reverse ++ T.reverse := by
    have h2 := congrArg List.reverse hT
    rw [List.reverse_append, List.reverse_reverse] at h2
    exact h2.symm
  exact hApp _ _ (by rw [← hXeq]; exact h1)

theorem noNl3_trimWs {cs : List Char} (h : noNl3 cs = true) : noNl3 (trimWs cs) = true :=
  trimWs_pres (fun X Y hx => noNl3Go_append X Y 0 hx)
    (fun X hx => noNl3_dropWhile X 0 hx) h

theorem spOk_trimWs {cs : List Char} (h : spOk cs = true) : spOk (trimWs cs) = true :=
  trimWs_pres (fun X Y hx => spOkGo_append X Y false hx)
    (fun X hx => spOk_dropWhile X false hx) h

theorem pmOk_trimWs {cs : List Char} (h : pmOk cs = true) : pmOk (trimWs cs) = true :=
  trimWs_pres pmOk_append (fun X hx => pmOk_dropWhile X hx) h

theorem dropWhile_head_not_isWs (l : List Char) :
    ∀ y, (l.dropWhile isWs).head? = some y → isWs y = false := by
  intro y hy
  have hthis := List.head?_dropWhile_not isWs l
  rw [hy] at hthis
  exact hthis

theorem dropWhile_eq_self_of_head {l : List Char}
    (h : ∀ y, l.head? = some y → isWs y = false) : l.dropWhile isWs = l := by
  cases l with
  | nil => rfl
  | cons c rest =>
      have hc := h c rfl
      rw [List.dropWhile_cons_of_neg (by simp [hc])]

theorem dropTrailWs_dropTrailWs (cs : List Char) :
    dropTrailWs (dropTrailWs cs) = dropTrailWs cs := by
  unfold dropTrailWs
  rw [List.reverse_reverse, List.dropWhile_idempotent]

/-- Trimming is idempotent. -/
theorem trimWs_idem (cs : List Char) : trimWs (trimWs cs) = trimWs cs := by
  unfold trimWs
  obtain ⟨T, hT⟩ := List.dropWhile_suffix (l := (cs.dropWhile isWs).reverse) isWs
  have hXeq : cs.dropWhile isWs =
      ((cs.dropWhile isWs).reverse.dropWhile isWs).reverse ++ T.reverse := by
    have h2 := congrArg List.reverse hT
    rw [List.reverse_append, List.reverse_reverse] at h2
    exact h2.symm
  have hBhead : ∀ y, (dropTrailWs (cs.dropWhile isWs)).head? = some y → isWs y = false := by
    intro y hy
    apply dropWhile_head_not_isWs cs y
    unfold dropTrailWs at hy
    rw [hXeq]
    cases hB : ((cs.dropWhile isWs).reverse.dropWhile isWs).reverse with
    | nil =>
        rw [hB] at hy
        cases hy
    | cons b B' =>
        rw [hB] at hy
        simp only [List.head?_cons] at hy
        simpa using hy
  rw [dropWhile_eq_self_of_head hBhead, dropTrailWs_dropTrailWs]

/-- C9 counterexample input: consecutive sentence-ending punctuation. -/
def c9Input : String := "a.!b"

/-- Claim C9 counterexample: normalization is not a fixed point on its own
output.  The punctuation-spacing replacement consumes `!` as the second
character of the match `.!` and never examines it as a match start, so one
pass of `"a.!b"` yields `"a. !b"`, and a second pass finds the fresh match
`!b` and yields `"a. ! b"` — refuting
`normalize(normalize(s)) = normalize(s)` at `s = "a.!b"`. -/
theorem claim_C9_counterexample :
    normalizeText c9Input = "a. !b"
    ∧ normalizeText (normalizeText c9Input) = "a. ! b"
    ∧ normalizeText (normalizeText c9Input) ≠ normalizeText c9Input := by
  refine ⟨by decide, by decide, by decide⟩

/-- Claim C9 as amended: normalization is a fixed point on its own output
for every input in which no sentence-ending punctuation character (`.`,
`!`, `?`) is immediately followed by another one; for such inputs
`normalize(normalize(s)) = normalize(s)`.  (On inputs with adjacent
punctuation pairs the punctuation-spacing step can uncover new matches on
the second pass, so normalization is not idempotent in general — see the
counterexample.) -/
theorem claim_C9_amended (s : String) (hap : apOk s.data = true) :
    normalizeText (normalizeText s) = normalizeText s := by
  have hNl_u : noNl3 (collapseSp (collapseNl s.data)) = true :=
    (noNl3_collapseSpGo (collapseNl s.data) 0 (noNl3_collapseNlGo s.data 0)).1
  have hSp_u : spOk (collapseSp (collapseNl s.data)) = true :=
    spOk_collapseSpGo (collapseNl s.data) false
  have hAp_u : apOk (collapseSp (collapseNl s.data)) = true :=
    apOk_collapseSpGo (collapseNl s.data) false (apOk_collapseNlGo s.data 0 hap)
  have hNl_t : noNl3 (trimWs (fixPunct (collapseSp (collapseNl s.data)))) = true :=
    noNl3_trimWs (noNl3_fixPunct _ 0 hNl_u)
  have hSp_t : spOk (trimWs (fixPunct (collapseSp (collapseNl s.data)))) = true :=
    spOk_trimWs (spOk_fixPunct _ false hSp_u)
  have hPm_t : pmOk (trimWs (fixPunct (collapseSp (collapseNl s.data)))) = true :=
    pmOk_trimWs (pmOk_fixPunct _ hAp_u)
  unfold normalizeText
  refine congrArg String.mk ?_
  show trimWs (fixPunct (collapseSp (collapseNl
      (trimWs (fixPunct (collapseSp (collapseNl s.data)))))))
    = trimWs (fixPunct (collapseSp (collapseNl s.data)))
  rw [collapseNl_id hNl_t, collapseSp_id hSp_t, fixPunct_id _ hPm_t, trimWs_idem]

/-- Witness for C9's amended claim at the normalized Scenario-A text. -/
theorem claim_C9_witness :
    normalizeText (normalizeText "Hello world.\n\nNext. See")
      = normalizeText "Hello world.\n\nNext. See" :=
  claim_C9_amended "Hello world.\n\nNext. See" (by decide)

end SpeedReader
